import Mathlib

/-!
Verification of the sankey-diagram construction pipeline in `src/sankey.py`.

The Python pipeline `create_sankey_diagram(df, proportional)` is embedded
shallowly: a pandas row becomes a `Row` (a primary category plus a valuation
of the topic-indicator columns in `ℚ`), pandas group-by/sum operations become
explicit list operations, and the resulting plotly figure data becomes a
`DiagramGraph` (node list plus edge list).  Machine floats are modelled by
exact rationals; the color strings produced by f-string interpolation are
modelled by explicit string concatenation with the alpha value passed as its
rendered literal.
-/

namespace Sankey

/-- One entity row of the input dataframe: the `fameswap_category` column and
the valuation of the remaining (topic-indicator) columns. -/
structure Row where
  fameswap_category : String
  vals : String → ℚ

/-- `topic_columns` from `create_sankey_diagram` (src/sankey.py lines 95-102):
all processed topic-indicator columns, `unclassified` included. -/
def topic_columns : List String :=
  ["cryptocurrency_content", "financial_content", "gambling_content",
   "hateful_extremist_content", "manosphere_redpill_content",
   "medical_health_content", "news_content", "political_content",
   "religious_content", "unclassified"]

/-- `TOPIC_LABELS` (lines 27-38): topic-indicator column → specific-topic
label.  The Python dict is only ever indexed with members of
`topic_columns`; outside that domain the model returns `""`. -/
def TOPIC_LABELS (c : String) : String :=
  if c = "cryptocurrency_content" then "Cryptocurrency"
  else if c = "financial_content" then "Money"
  else if c = "gambling_content" then "Gambling"
  else if c = "hateful_extremist_content" then "Extremist"
  else if c = "manosphere_redpill_content" then "Manosphere"
  else if c = "medical_health_content" then "Medical"
  else if c = "news_content" then "News"
  else if c = "political_content" then "Political"
  else if c = "religious_content" then "Religious"
  else if c = "unclassified" then "Not at-risk"
  else ""

/-- `FAMESWAP_LABELS.get(cat, cat)` (lines 6-25 and 229): display label of a
primary category, defaulting to the category itself. -/
def FAMESWAP_LABELS (c : String) : String :=
  if c = "Tech & Science" then "Technology"
  else if c = "Educational & QA" then "Education"
  else if c = "Quotes & Sayings" then "Quotes"
  else if c = "Pets & Animals" then "Pets"
  else if c = "Food & Nutrition" then "Food"
  else if c = "Outdoor & Travel" then "Travel"
  else if c = "Art & Creativity" then "Creativity"
  else if c = "Cars & Bikes" then "Cars"
  else if c = "Crypto & NFT" then "Crypto"
  else if c = "Beauty & Makeup" then "Beauty"
  else if c = "Fitness & Sports" then "Sports"
  else if c = "Reviews & How-to" then "How-to"
  else if c = "Models & Celebrities" then "Celebrities"
  else if c = "Humor & Memes" then "Memes"
  else if c = "Luxury & Motivation" then "Motivation"
  else if c = "Gaming & Entertainment" then "Gaming"
  else if c = "Fashion & Style" then "Fashion"
  else if c = "Movies TV & Fanpages" then "Fanpages"
  else c

/-- `FAMESWAP_ORDER` (lines 41-47). -/
def FAMESWAP_ORDER : List String :=
  ["Humor & Memes", "Gaming & Entertainment", "Tech & Science", "Educational & QA",
   "Reviews & How-to", "Models & Celebrities", "Luxury & Motivation", "Movies TV & Fanpages",
   "Fitness & Sports", "Fashion & Style", "Quotes & Sayings", "Crypto & NFT",
   "Food & Nutrition", "Art & Creativity", "Cars & Bikes", "Outdoor & Travel",
   "Pets & Animals", "Beauty & Makeup"]

/-- `BROAD_CATEGORY_ORDER` (line 49). -/
def BROAD_CATEGORY_ORDER : List String := ["Other", "Ideological", "Financial"]

/-- `SPECIFIC_TOPIC_ORDER` (lines 51-54). -/
def SPECIFIC_TOPIC_ORDER : List String :=
  ["Not at-risk", "Political", "News", "Religious", "Medical", "Manosphere",
   "Extremist", "Cryptocurrency", "Money", "Gambling"]

/-- `topic_to_broad` (lines 105-109 and 175-178): specific-topic label →
broad-category label, derived from the `broad_categories` grouping dict. -/
def topic_to_broad (t : String) : String :=
  if t = "Political" ∨ t = "Religious" ∨ t = "News" ∨ t = "Medical" ∨
     t = "Manosphere" ∨ t = "Extremist" then "Ideological"
  else if t = "Cryptocurrency" ∨ t = "Money" ∨ t = "Gambling" then "Financial"
  else if t = "Not at-risk" then "Other"
  else ""

/-- `broad_colors.get(cat, '#BDC3C7')` (lines 112-116). -/
def broad_colors (c : String) : String :=
  if c = "Ideological" then "#FF6B6B"
  else if c = "Financial" then "#4ECDC4"
  else if c = "Other" then "#BDC3C7"
  else "#BDC3C7"

/-- `topic_colors.get(cat, '#BDC3C7')` (lines 118-129). -/
def topic_colors (c : String) : String :=
  if c = "Cryptocurrency" then "#45B7D1"
  else if c = "Money" then "#85C1E9"
  else if c = "Gambling" then "#5DADE2"
  else if c = "Extremist" then "#F8C471"
  else if c = "Manosphere" then "#BB8FCE"
  else if c = "Medical" then "#F7DC6F"
  else if c = "News" then "#D7BDE2"
  else if c = "Political" then "#EC7063"
  else if c = "Religious" then "#F9E79F"
  else if c = "Not at-risk" then "#BDC3C7"
  else "#BDC3C7"

/-- `invisible_nodes` (line 224). -/
def invisible_nodes : List String := ["Other", "Not at-risk"]

/-- Value of one hexadecimal digit, as computed by Python `int(x, 16)` on a
valid digit character. -/
def hexDigitVal (c : Char) : ℕ :=
  if 48 ≤ c.toNat ∧ c.toNat ≤ 57 then c.toNat - 48
  else if 97 ≤ c.toNat ∧ c.toNat ≤ 102 then c.toNat - 87
  else if 65 ≤ c.toNat ∧ c.toNat ≤ 70 then c.toNat - 55
  else 0

/-- `hex_to_rgba` (lines 79-83).  The float alpha is passed as the literal
that Python's f-string renders for it. -/
def hex_to_rgba (hex_color : String) (alpha : String) : String :=
  let cs := hex_color.data.dropWhile (fun c => c = '#')
  let comp := fun (i : ℕ) => 16 * hexDigitVal (cs.getD i '0') + hexDigitVal (cs.getD (i + 1) '0')
  "rgba(" ++ toString (comp 0) ++ ", " ++ toString (comp 2) ++ ", " ++ toString (comp 4)
    ++ ", " ++ alpha ++ ")"

/-- Line 132: `df[df['fameswap_category'] != 'Beauty & Makeup']`. -/
def df_filtered (df : List Row) : List Row :=
  df.filter (fun r => r.fameswap_category != "Beauty & Makeup")

/-- Line 142: `df_normalized[topic_columns].sum(axis=1)` — per-row sum of the
topic columns. -/
def topic_sums (r : Row) : ℚ := (topic_columns.map r.vals).sum

/-- Lines 144-149: proportional normalization of one row.  A topic cell is
replaced by `1 / topic_sums` when it holds `1` and the row sum is positive,
and by `0` otherwise; non-topic columns are untouched.  (The Python loop
writes each topic column exactly once, reading masks from columns not yet
written, so the sequential updates equal this simultaneous one.) -/
def normalize_row (r : Row) : Row :=
  { r with vals := fun c =>
      if c ∈ topic_columns then
        (if r.vals c = 1 ∧ 0 < topic_sums r then 1 / topic_sums r else 0)
      else r.vals c }

/-- One row of a per-topic flow frame (lines 155-157 / 164-165). -/
structure Flow where
  fameswap_category : String
  count : ℚ
  specific_topic : String
deriving DecidableEq

/-- Byte-wise (code-point) comparison of character lists: the order Python's
`sorted` uses on strings. -/
def charListLe : List Char → List Char → Bool
  | [], _ => true
  | _ :: _, [] => false
  | a :: as, b :: bs =>
    if a.toNat < b.toNat then true
    else if b.toNat < a.toNat then false
    else charListLe as bs

/-- Lexicographic (code-point) string comparison, as used by Python `sorted`
and by pandas when sorting group keys. -/
def strLe (a b : String) : Bool := charListLe a.data b.data

/-- `strLe` as a relation. -/
def strLeRel (a b : String) : Prop := strLe a b = true

instance : DecidableRel strLeRel :=
  fun a b => inferInstanceAs (Decidable (strLe a b = true))

/-- Lexicographic order on pairs of strings: the key order of a two-column
pandas `groupby`. -/
def pairLe (a b : String × String) : Bool :=
  if a.1 = b.1 then strLe a.2 b.2 else strLe a.1 b.1

/-- `pairLe` as a relation. -/
def pairLeRel (a b : String × String) : Prop := pairLe a b = true

instance : DecidableRel pairLeRel :=
  fun a b => inferInstanceAs (Decidable (pairLe a b = true))

/-- The distinct values of a list, in ascending order: the group keys produced
by a pandas `groupby` (which sorts keys by default). -/
def sorted_unique (l : List String) : List String := l.dedup.insertionSort strLeRel

/-- Distinct pairs in ascending lexicographic order: keys of a two-column
`groupby`. -/
def sorted_unique_pairs (l : List (String × String)) : List (String × String) :=
  l.dedup.insertionSort pairLeRel

/-- Group keys of `topic_channels.groupby('fameswap_category')`. -/
def group_keys (rows : List Row) : List String :=
  sorted_unique (rows.map Row.fameswap_category)

/-- One frame of lines 161-166 (binary mode): rows with the topic column at
`1`, grouped by primary category with group sizes as counts. -/
def flows_frame_binary (base : List Row) (topic_col : String) : List Flow :=
  let topic_channels := base.filter (fun r => r.vals topic_col == 1)
  (group_keys topic_channels).map (fun cat =>
    { fameswap_category := cat,
      count := ((topic_channels.filter (fun r => r.fameswap_category == cat)).length : ℚ),
      specific_topic := TOPIC_LABELS topic_col })

/-- One frame of lines 152-158 (proportional mode): rows with positive
normalized value in the topic column, grouped by primary category with the
normalized values summed. -/
def flows_frame_prop (dfn : List Row) (topic_col : String) : List Flow :=
  let topic_channels := dfn.filter (fun r => decide (0 < r.vals topic_col))
  (group_keys topic_channels).map (fun cat =>
    { fameswap_category := cat,
      count := ((topic_channels.filter (fun r => r.fameswap_category == cat)).map
        (fun r => r.vals topic_col)).sum,
      specific_topic := TOPIC_LABELS topic_col })

/-- `topic_flows` (lines 135-166): the list of per-topic flow frames, one per
topic column whose channel selection is non-empty. -/
def topic_flows (df : List Row) (proportional : Bool) : List (List Flow) :=
  if proportional then
    topic_columns.filterMap (fun topic_col =>
      if (((df_filtered df).map normalize_row).filter
          (fun r => decide (0 < r.vals topic_col))).isEmpty then none
      else some (flows_frame_prop ((df_filtered df).map normalize_row) topic_col))
  else
    topic_columns.filterMap (fun topic_col =>
      if ((df_filtered df).filter (fun r => r.vals topic_col == 1)).isEmpty then none
      else some (flows_frame_binary (df_filtered df) topic_col))

/-- `all_flows` (line 172): concatenation of the per-topic frames. -/
def all_flows (df : List Row) (proportional : Bool) : List Flow :=
  (topic_flows df proportional).flatten

/-- The two-column group key of line 183: `(fameswap_category, broad_category)`
where `broad_category` is the mapped specific topic (line 180). -/
def bkey (f : Flow) : String × String := (f.fameswap_category, topic_to_broad f.specific_topic)

/-- The two-column group key of line 186: `(broad_category, specific_topic)`. -/
def skey (f : Flow) : String × String := (topic_to_broad f.specific_topic, f.specific_topic)

/-- One row of `broad_flows` (line 183). -/
structure BFlow where
  fameswap_category : String
  broad_category : String
  count : ℚ
deriving DecidableEq

/-- One row of `specific_flows` (line 186). -/
structure SFlow where
  broad_category : String
  specific_topic : String
  count : ℚ
deriving DecidableEq

/-- `broad_flows` (line 183): `all_flows` grouped by
`(fameswap_category, broad_category)` with counts summed. -/
def broad_flows (df : List Row) (proportional : Bool) : List BFlow :=
  (sorted_unique_pairs ((all_flows df proportional).map bkey)).map (fun k =>
    { fameswap_category := k.1, broad_category := k.2,
      count := (((all_flows df proportional).filter
        (fun f => bkey f == k)).map Flow.count).sum })

/-- `specific_flows` (line 186): `all_flows` grouped by
`(broad_category, specific_topic)` with counts summed. -/
def specific_flows (df : List Row) (proportional : Bool) : List SFlow :=
  (sorted_unique_pairs ((all_flows df proportional).map skey)).map (fun k =>
    { broad_category := k.1, specific_topic := k.2,
      count := (((all_flows df proportional).filter
        (fun f => skey f == k)).map Flow.count).sum })

/-- `get_ordered_list`'s loop (lines 191-199): walk the canonical order,
collecting the members of `remaining` in canonical order and returning the
yet-unmatched remainder. -/
def get_ordered_core : List String → List String → List String × List String
  | [], remaining => ([], remaining)
  | item :: rest, remaining =>
    if item ∈ remaining then
      let r := get_ordered_core rest (remaining.erase item)
      (item :: r.1, r.2)
    else get_ordered_core rest remaining

/-- `get_ordered_list` (lines 189-202).  Python's `set(available_items)` is
modelled by `List.dedup` (only its underlying set is ever used), and the
final `sorted(remaining)` by insertion sort under the code-point order. -/
def get_ordered_list (available_items order_list : List String) : List String :=
  let r := get_ordered_core order_list available_items.dedup
  r.1 ++ r.2.insertionSort strLeRel

/-- Line 205: `df['fameswap_category'].unique()`. -/
def available_fameswap (df : List Row) : List String :=
  (df.map Row.fameswap_category).dedup

/-- Lines 206-209: ordered primary categories with `Beauty & Makeup` removed. -/
def fameswap_categories (df : List Row) : List String :=
  (get_ordered_list (available_fameswap df) FAMESWAP_ORDER).filter
    (fun cat => cat != "Beauty & Makeup")

/-- Lines 211-212: ordered broad categories actually observed. -/
def broad_category_list (df : List Row) (proportional : Bool) : List String :=
  get_ordered_list (((broad_flows df proportional).map BFlow.broad_category).dedup)
    BROAD_CATEGORY_ORDER

/-- Lines 214-215: ordered specific topics actually observed. -/
def specific_topics (df : List Row) (proportional : Bool) : List String :=
  get_ordered_list (((specific_flows df proportional).map SFlow.specific_topic).dedup)
    SPECIFIC_TOPIC_ORDER

/-- One node of the diagram: label, fill color, x and y position
(lines 218-221). -/
structure NodeInfo where
  label : String
  color : String
  x : ℚ
  y : ℚ
deriving DecidableEq

/-- Lines 227-232: the left (level-1) column of nodes; `fameswap_spacing` is
`0.9 / len(fameswap_categories)`. -/
def fameswap_nodes (cats : List String) : List NodeInfo :=
  cats.enum.map (fun p =>
    { label := FAMESWAP_LABELS p.2, color := "#A1B2B9", x := 0.01,
      y := 0.05 + (p.1 : ℚ) * (0.9 / (cats.length : ℚ)) })

/-- Lines 234-253: the middle (level-2) column of nodes. -/
def broad_nodes (bl : List String) : List NodeInfo :=
  bl.map (fun cat =>
    if cat ∈ invisible_nodes then
      { label := "", color := "rgba(0,0,0,0)", x := 0.3, y := 0.001 }
    else
      { label := "", color := broad_colors cat, x := 0.5,
        y := if cat = "Ideological" then 0.3 else 0.7 })

/-- `specific_y_positions.get(cat, 0.5)` (lines 256-267, 279). -/
def specific_y_positions (cat : String) : ℚ :=
  if cat = "Political" then 0.1
  else if cat = "News" then 0.2
  else if cat = "Religious" then 0.3
  else if cat = "Medical" then 0.4
  else if cat = "Manosphere" then 0.45
  else if cat = "Extremist" then 0.5
  else if cat = "Cryptocurrency" then 0.6
  else if cat = "Money" then 0.68
  else if cat = "Gambling" then 0.75
  else if cat = "Not at-risk" then 0.0001
  else 0.5

/-- Lines 269-279: the right (level-3) column of nodes. -/
def specific_nodes (tops : List String) : List NodeInfo :=
  tops.map (fun cat =>
    if cat ∈ invisible_nodes then
      { label := "", color := "rgba(0,0,0,0)", x := 2, y := 0.0001 }
    else
      { label := cat, color := topic_colors cat, x := 0.8, y := specific_y_positions cat })

/-- The concatenated per-level category lists, in the order the node lists are
built (level 1, then level 2, then level 3). -/
def node_labels (df : List Row) (proportional : Bool) : List String :=
  fameswap_categories df ++ broad_category_list df proportional ++ specific_topics df proportional

/-- `node_mapping` (lines 281-292): a single dict keyed by category label,
written in concatenation order — so a label occurring at several levels is
mapped to its LAST (deepest) index.  The Python dict lookup is total on the
labels that occur; `getD 0` stands in for the never-exercised missing case. -/
def node_mapping (labels : List String) (cat : String) : ℕ :=
  (labels.enum.foldl (fun acc p => if p.2 = cat then some p.1 else acc) none).getD 0

/-- The sort key order of lines 295-306: by position of the source category in
the level-1 list, then position of the target in the level-2 list. -/
def bflowOrder (fw bl : List String) (a b : BFlow) : Prop :=
  fw.indexOf a.fameswap_category < fw.indexOf b.fameswap_category ∨
  (fw.indexOf a.fameswap_category = fw.indexOf b.fameswap_category ∧
    bl.indexOf a.broad_category ≤ bl.indexOf b.broad_category)

instance (fw bl : List String) : DecidableRel (bflowOrder fw bl) :=
  fun a b => inferInstanceAs (Decidable (_ ∨ _))

/-- `broad_flows_sorted` (lines 295-306). -/
def broad_flows_sorted (df : List Row) (proportional : Bool) : List BFlow :=
  (broad_flows df proportional).insertionSort
    (bflowOrder (fameswap_categories df) (broad_category_list df proportional))

/-- The sort key order of lines 308-319. -/
def sflowOrder (bl st : List String) (a b : SFlow) : Prop :=
  bl.indexOf a.broad_category < bl.indexOf b.broad_category ∨
  (bl.indexOf a.broad_category = bl.indexOf b.broad_category ∧
    st.indexOf a.specific_topic ≤ st.indexOf b.specific_topic)

instance (bl st : List String) : DecidableRel (sflowOrder bl st) :=
  fun a b => inferInstanceAs (Decidable (_ ∨ _))

/-- `specific_flows_sorted` (lines 308-319). -/
def specific_flows_sorted (df : List Row) (proportional : Bool) : List SFlow :=
  (specific_flows df proportional).insertionSort
    (sflowOrder (broad_category_list df proportional) (specific_topics df proportional))

/-- One link of the diagram (lines 322-325): source index, target index,
weight, color. -/
structure EdgeInfo where
  source : ℕ
  target : ℕ
  value : ℚ
  color : String
deriving DecidableEq

/-- Lines 327-338: the level-1→level-2 links. -/
def broad_edges (df : List Row) (proportional : Bool) : List EdgeInfo :=
  (broad_flows_sorted df proportional).map (fun row =>
    { source := node_mapping (node_labels df proportional) row.fameswap_category,
      target := node_mapping (node_labels df proportional) row.broad_category,
      value := row.count,
      color := if row.broad_category ∈ invisible_nodes then "rgba(0,0,0,0)"
               else hex_to_rgba (broad_colors row.broad_category) "0.6" })

/-- Lines 340-351: the level-2→level-3 links. -/
def specific_edges (df : List Row) (proportional : Bool) : List EdgeInfo :=
  (specific_flows_sorted df proportional).map (fun row =>
    { source := node_mapping (node_labels df proportional) row.broad_category,
      target := node_mapping (node_labels df proportional) row.specific_topic,
      value := row.count,
      color := if row.specific_topic ∈ invisible_nodes ∨ row.broad_category ∈ invisible_nodes
               then "rgba(0,0,0,0)"
               else hex_to_rgba (topic_colors row.specific_topic) "0.6" })

/-- The renderer-agnostic graph handed to plotly (lines 354-371). -/
structure DiagramGraph where
  nodes : List NodeInfo
  edges : List EdgeInfo
deriving DecidableEq

/-- `create_sankey_diagram` (lines 85-380): `none` models the early
`return None` of lines 168-170; otherwise the node and edge lists that
parameterize the figure. -/
def create_sankey_diagram (df : List Row) (proportional : Bool) : Option DiagramGraph :=
  if (topic_flows df proportional).isEmpty then none
  else some
    { nodes := fameswap_nodes (fameswap_categories df)
         ++ broad_nodes (broad_category_list df proportional)
         ++ specific_nodes (specific_topics df proportional),
      edges := broad_edges df proportional ++ specific_edges df proportional }

/-- A concrete test row: category plus the set of columns holding `1`. -/
def mkRow (cat : String) (ones : List String) : Row :=
  { fameswap_category := cat, vals := fun c => if c ∈ ones then 1 else 0 }

/-! ### Order properties of the code-point comparison -/

lemma charListLe_iff (a b : Char) (as bs : List Char) :
    charListLe (a :: as) (b :: bs) = true ↔
      a.toNat < b.toNat ∨ (a.toNat = b.toNat ∧ charListLe as bs = true) := by
  simp only [charListLe]
  split_ifs with h1 h2
  · simp [h1]
  · simp only [Bool.false_eq_true, false_iff, not_or, not_and]
    exact ⟨h1, fun he => absurd h2 (by omega)⟩
  · have h3 : a.toNat = b.toNat := by omega
    simp [h1, h3]

lemma charListLe_total : ∀ as bs : List Char, charListLe as bs = true ∨ charListLe bs as = true
  | [], _ => Or.inl rfl
  | _ :: _, [] => Or.inr rfl
  | a :: as, b :: bs => by
    rcases Nat.lt_trichotomy a.toNat b.toNat with h | h | h
    · exact Or.inl ((charListLe_iff a b as bs).mpr (Or.inl h))
    · rcases charListLe_total as bs with h2 | h2
      · exact Or.inl ((charListLe_iff a b as bs).mpr (Or.inr ⟨h, h2⟩))
      · exact Or.inr ((charListLe_iff b a bs as).mpr (Or.inr ⟨h.symm, h2⟩))
    · exact Or.inr ((charListLe_iff b a bs as).mpr (Or.inl h))

lemma charListLe_trans : ∀ as bs cs : List Char, charListLe as bs = true →
    charListLe bs cs = true → charListLe as cs = true
  | [], _, _, _, _ => rfl
  | _ :: _, [], _, h, _ => by simp [charListLe] at h
  | _ :: _, _ :: _, [], _, h => by simp [charListLe] at h
  | a :: as, b :: bs, c :: cs, h1, h2 => by
    rw [charListLe_iff] at h1 h2 ⊢
    rcases h1 with h1 | ⟨h1e, h1r⟩ <;> rcases h2 with h2 | ⟨h2e, h2r⟩
    · exact Or.inl (by omega)
    · exact Or.inl (by omega)
    · exact Or.inl (by omega)
    · exact Or.inr ⟨by omega, charListLe_trans as bs cs h1r h2r⟩

lemma char_eq_of_toNat_eq {a b : Char} (h : a.toNat = b.toNat) : a = b := by
  apply Char.ext
  apply UInt32.ext
  exact h

lemma charListLe_antisymm : ∀ as bs : List Char, charListLe as bs = true →
    charListLe bs as = true → as = bs
  | [], [], _, _ => rfl
  | [], _ :: _, _, h => by simp [charListLe] at h
  | _ :: _, [], h, _ => by simp [charListLe] at h
  | a :: as, b :: bs, h1, h2 => by
    rw [charListLe_iff] at h1 h2
    have he : a.toNat = b.toNat := by
      rcases h1 with h1 | ⟨h1e, _⟩ <;> rcases h2 with h2 | ⟨h2e, _⟩ <;> omega
    have hr : charListLe as bs = true := by
      rcases h1 with h1 | ⟨_, h1r⟩
      · omega
      · exact h1r
    have hr2 : charListLe bs as = true := by
      rcases h2 with h2 | ⟨_, h2r⟩
      · omega
      · exact h2r
    rw [char_eq_of_toNat_eq he, charListLe_antisymm as bs hr hr2]

instance : IsTotal String strLeRel :=
  ⟨fun a b => charListLe_total a.data b.data⟩

instance : IsTrans String strLeRel :=
  ⟨fun a b c => charListLe_trans a.data b.data c.data⟩

instance : IsAntisymm String strLeRel :=
  ⟨fun a b h1 h2 => String.ext (charListLe_antisymm a.data b.data h1 h2)⟩

/-! ### Properties of `get_ordered_core` and `get_ordered_list` -/

lemma get_ordered_core_fst_sublist : ∀ (order rem : List String),
    (get_ordered_core order rem).1.Sublist order
  | [], _ => by simp [get_ordered_core]
  | item :: rest, rem => by
    simp only [get_ordered_core]
    split_ifs with h
    · exact (get_ordered_core_fst_sublist rest (rem.erase item)).cons₂ item
    · exact (get_ordered_core_fst_sublist rest rem).cons item

lemma get_ordered_core_fst_mem : ∀ (order rem : List String), rem.Nodup → ∀ x,
    (x ∈ (get_ordered_core order rem).1 ↔ x ∈ rem ∧ x ∈ order)
  | [], rem, _, x => by simp [get_ordered_core]
  | item :: rest, rem, hnd, x => by
    simp only [get_ordered_core]
    split_ifs with h
    · have ih := get_ordered_core_fst_mem rest (rem.erase item) (hnd.erase item) x
      simp only [List.mem_cons, ih, hnd.mem_erase_iff]
      constructor
      · rintro (rfl | ⟨⟨hne, hx⟩, hrest⟩)
        · exact ⟨h, Or.inl rfl⟩
        · exact ⟨hx, Or.inr hrest⟩
      · rintro ⟨hx, rfl | hrest⟩
        · exact Or.inl rfl
        · by_cases hxi : x = item
          · exact Or.inl hxi
          · exact Or.inr ⟨⟨hxi, hx⟩, hrest⟩
    · have ih := get_ordered_core_fst_mem rest rem hnd x
      simp only [ih, List.mem_cons]
      constructor
      · rintro ⟨hx, hrest⟩
        exact ⟨hx, Or.inr hrest⟩
      · rintro ⟨hx, rfl | hrest⟩
        · exact absurd hx h
        · exact ⟨hx, hrest⟩

lemma get_ordered_core_fst_nodup : ∀ (order rem : List String), rem.Nodup →
    (get_ordered_core order rem).1.Nodup
  | [], _, _ => by simp [get_ordered_core]
  | item :: rest, rem, hnd => by
    simp only [get_ordered_core]
    split_ifs with h
    · refine List.Nodup.cons ?_ (get_ordered_core_fst_nodup rest (rem.erase item) (hnd.erase item))
      intro hmem
      have := (get_ordered_core_fst_mem rest (rem.erase item) (hnd.erase item) item).mp hmem
      exact hnd.not_mem_erase this.1
    · exact get_ordered_core_fst_nodup rest rem hnd

lemma get_ordered_core_snd_mem : ∀ (order rem : List String), rem.Nodup → ∀ x,
    (x ∈ (get_ordered_core order rem).2 ↔ x ∈ rem ∧ x ∉ order)
  | [], rem, _, x => by simp [get_ordered_core]
  | item :: rest, rem, hnd, x => by
    simp only [get_ordered_core]
    split_ifs with h
    · have ih := get_ordered_core_snd_mem rest (rem.erase item) (hnd.erase item) x
      simp only [ih, hnd.mem_erase_iff, List.mem_cons]
      constructor
      · rintro ⟨⟨hne, hx⟩, hrest⟩
        exact ⟨hx, by simp [hne, hrest]⟩
      · rintro ⟨hx, hni⟩
        simp only [not_or] at hni
        exact ⟨⟨hni.1, hx⟩, hni.2⟩
    · have ih := get_ordered_core_snd_mem rest rem hnd x
      simp only [ih, List.mem_cons]
      constructor
      · rintro ⟨hx, hrest⟩
        refine ⟨hx, ?_⟩
        rintro (rfl | hmem)
        · exact h hx
        · exact hrest hmem
      · rintro ⟨hx, hni⟩
        simp only [not_or] at hni
        exact ⟨hx, hni.2⟩

lemma get_ordered_core_snd_nodup : ∀ (order rem : List String), rem.Nodup →
    (get_ordered_core order rem).2.Nodup
  | [], _, hnd => hnd
  | item :: rest, rem, hnd => by
    simp only [get_ordered_core]
    split_ifs with h
    · exact get_ordered_core_snd_nodup rest (rem.erase item) (hnd.erase item)
    · exact get_ordered_core_snd_nodup rest rem hnd

lemma get_ordered_core_fst_congr : ∀ (order rem1 rem2 : List String), rem1.Nodup → rem2.Nodup →
    (∀ x, x ∈ rem1 ↔ x ∈ rem2) →
    (get_ordered_core order rem1).1 = (get_ordered_core order rem2).1
  | [], _, _, _, _, _ => rfl
  | item :: rest, rem1, rem2, h1, h2, hmem => by
    simp only [get_ordered_core]
    by_cases h : item ∈ rem1
    · rw [if_pos h, if_pos ((hmem item).mp h)]
      have : ∀ x, x ∈ rem1.erase item ↔ x ∈ rem2.erase item := by
        intro x
        rw [h1.mem_erase_iff, h2.mem_erase_iff, hmem x]
      rw [get_ordered_core_fst_congr rest (rem1.erase item) (rem2.erase item)
        (h1.erase item) (h2.erase item) this]
    · rw [if_neg h, if_neg (fun hc => h ((hmem item).mpr hc))]
      exact get_ordered_core_fst_congr rest rem1 rem2 h1 h2 hmem

lemma mem_get_ordered_list (available order : List String) (x : String) :
    x ∈ get_ordered_list available order ↔ x ∈ available := by
  unfold get_ordered_list
  simp only [List.mem_append, (List.perm_insertionSort strLeRel _).mem_iff,
    get_ordered_core_fst_mem order available.dedup available.nodup_dedup x,
    get_ordered_core_snd_mem order available.dedup available.nodup_dedup x,
    List.mem_dedup]
  by_cases h : x ∈ order <;> simp [h]

lemma nodup_get_ordered_list (available order : List String) :
    (get_ordered_list available order).Nodup := by
  unfold get_ordered_list
  refine List.Nodup.append ?_ ?_ ?_
  · exact get_ordered_core_fst_nodup order available.dedup available.nodup_dedup
  · exact ((List.perm_insertionSort strLeRel _).nodup_iff).mpr
      (get_ordered_core_snd_nodup order available.dedup available.nodup_dedup)
  · intro x hx hy
    have h1 := (get_ordered_core_fst_mem order available.dedup available.nodup_dedup x).mp hx
    have h2 := (get_ordered_core_snd_mem order available.dedup available.nodup_dedup x).mp
      ((List.perm_insertionSort strLeRel _).mem_iff.mp hy)
    exact h2.2 h1.2

lemma insertionSort_congr {l1 l2 : List String} (h1 : l1.Nodup) (h2 : l2.Nodup)
    (hmem : ∀ x, x ∈ l1 ↔ x ∈ l2) :
    l1.insertionSort strLeRel = l2.insertionSort strLeRel := by
  have hperm : List.Perm l1 l2 := List.perm_of_nodup_nodup_toFinset_eq h1 h2
    (Finset.ext fun x => by simp [List.mem_toFinset, hmem x])
  exact List.eq_of_perm_of_sorted
    ((List.perm_insertionSort strLeRel l1).trans
      (hperm.trans (List.perm_insertionSort strLeRel l2).symm))
    (List.sorted_insertionSort strLeRel l1) (List.sorted_insertionSort strLeRel l2)

/-- **C4.** `get_ordered_list` (src/sankey.py lines 189-202) returns a
duplicate-free sequence whose members are exactly the available items; it
decomposes as a prefix that is a subsequence of the canonical order list
(hence preserves the canonical relative order) holding exactly the available
items present in the canonical list, followed by the remaining available
items sorted lexicographically; and the result depends only on the SET of
available items, not on their enumeration order. -/
theorem get_ordered_list_spec (available order : List String) :
    (get_ordered_list available order).Nodup ∧
    (∀ x, x ∈ get_ordered_list available order ↔ x ∈ available) ∧
    (∃ p q, get_ordered_list available order = p ++ q ∧
      p.Sublist order ∧
      (∀ x, x ∈ p ↔ x ∈ available ∧ x ∈ order) ∧
      q.Sorted strLeRel ∧
      (∀ x, x ∈ q ↔ x ∈ available ∧ x ∉ order)) ∧
    (∀ available2 : List String, (∀ x, x ∈ available2 ↔ x ∈ available) →
      get_ordered_list available2 order = get_ordered_list available order) := by
  refine ⟨nodup_get_ordered_list available order, mem_get_ordered_list available order, ?_, ?_⟩
  · refine ⟨(get_ordered_core order available.dedup).1,
      (get_ordered_core order available.dedup).2.insertionSort strLeRel, rfl,
      get_ordered_core_fst_sublist order available.dedup, ?_, ?_, ?_⟩
    · intro x
      rw [get_ordered_core_fst_mem order available.dedup available.nodup_dedup x,
        List.mem_dedup]
    · exact List.sorted_insertionSort strLeRel _
    · intro x
      rw [(List.perm_insertionSort strLeRel _).mem_iff,
        get_ordered_core_snd_mem order available.dedup available.nodup_dedup x,
        List.mem_dedup]
  · intro available2 hmem
    have hd : ∀ x, x ∈ available2.dedup ↔ x ∈ available.dedup := by
      intro x; rw [List.mem_dedup, List.mem_dedup, hmem x]
    show (get_ordered_core order available2.dedup).1 ++
        (get_ordered_core order available2.dedup).2.insertionSort strLeRel =
      (get_ordered_core order available.dedup).1 ++
        (get_ordered_core order available.dedup).2.insertionSort strLeRel
    rw [get_ordered_core_fst_congr order available2.dedup available.dedup
      available2.nodup_dedup available.nodup_dedup hd]
    rw [insertionSort_congr
      (get_ordered_core_snd_nodup order available2.dedup available2.nodup_dedup)
      (get_ordered_core_snd_nodup order available.dedup available.nodup_dedup)
      (fun x => by
        rw [get_ordered_core_snd_mem order available2.dedup available2.nodup_dedup x,
          get_ordered_core_snd_mem order available.dedup available.nodup_dedup x, hd x])]

/-- Witness for C4 at a concrete input: `"Pets & Animals"` is in the canonical
order and comes first; the unknown labels `"b"`, `"a"` follow sorted. -/
theorem get_ordered_list_spec_witness :
    get_ordered_list ["b", "Pets & Animals", "a"] FAMESWAP_ORDER = ["Pets & Animals", "a", "b"] ∧
    (get_ordered_list ["b", "Pets & Animals", "a"] FAMESWAP_ORDER).Nodup :=
  ⟨by with_unfolding_all rfl, (get_ordered_list_spec ["b", "Pets & Animals", "a"] FAMESWAP_ORDER).1⟩

/-! ### Row-local facts about proportional normalization (C2, C3) -/

lemma sum_map_binary (v : String → ℚ) : ∀ l : List String,
    (∀ c ∈ l, v c = 0 ∨ v c = 1) →
    (l.map v).sum = ((l.filter (fun c => v c == 1)).length : ℚ)
  | [], _ => by simp
  | c :: t, hb => by
    have ht := sum_map_binary v t (fun x hx => hb x (List.mem_cons_of_mem c hx))
    rcases hb c (List.mem_cons_self c t) with h | h
    · have hne : (v c == 1) = false := by simp [h]
      simp [List.filter_cons, hne, ht, h]
    · have heq : (v c == 1) = true := by simp [h]
      rw [List.map_cons, List.sum_cons, ht, List.filter_cons, heq, if_pos rfl,
        List.length_cons, h]
      push_cast
      ring

lemma sum_map_normalized (v : String → ℚ) (s : ℚ) : ∀ l : List String,
    (l.map (fun c => if v c = 1 ∧ 0 < s then 1 / s else 0)).sum
      = if 0 < s then ((l.filter (fun c => v c == 1)).length : ℚ) / s else 0
  | [] => by simp
  | c :: t => by
    have ht := sum_map_normalized v s t
    by_cases hs : 0 < s
    · by_cases h : v c = 1
      · have heq : (v c == 1) = true := by simp [h]
        simp only [List.map_cons, List.sum_cons, ht, List.filter_cons, heq, if_true,
          List.length_cons, if_pos hs, if_pos (And.intro h hs)]
        push_cast
        field_simp
        ring
      · have hne : (v c == 1) = false := by simp [h]
        have hcond : ¬(v c = 1 ∧ 0 < s) := fun hc => h hc.1
        rw [List.map_cons, List.sum_cons, if_neg hcond, ht, if_pos hs, zero_add,
          List.filter_cons, hne, if_neg Bool.false_ne_true, if_pos hs]
    · have : ¬(v c = 1 ∧ 0 < s) := fun hc => hs hc.2
      simp [ht, this, hs]

/-- **C2.** In proportional mode, a row with at least one topic-indicator
column holding `1` (the `unclassified` column counted among them, all
indicator cells being `0` or `1`) has normalized topic values summing to
exactly `1`: the row's total contribution across all specific-topic flows
(src/sankey.py lines 137-158) is exactly `1`. -/
theorem proportional_row_contribution_sum (r : Row)
    (hb : ∀ c ∈ topic_columns, r.vals c = 0 ∨ r.vals c = 1)
    (hk : 1 ≤ (topic_columns.filter (fun c => r.vals c == 1)).length) :
    (topic_columns.map (normalize_row r).vals).sum = 1 := by
  have hs : topic_sums r = ((topic_columns.filter (fun c => r.vals c == 1)).length : ℚ) :=
    sum_map_binary r.vals topic_columns hb
  have hpos : 0 < topic_sums r := by
    rw [hs]
    exact_mod_cast hk
  have hmap : topic_columns.map (normalize_row r).vals
      = topic_columns.map (fun c => if r.vals c = 1 ∧ 0 < topic_sums r
          then 1 / topic_sums r else 0) :=
    List.map_congr_left (fun c hc => by simp [normalize_row, hc])
  rw [hmap, sum_map_normalized r.vals (topic_sums r) topic_columns, if_pos hpos, ← hs,
    div_self (ne_of_gt hpos)]

/-- Witness for C2: a row with two active indicators contributes `1/2 + 1/2 = 1`. -/
theorem proportional_row_contribution_sum_witness :
    (∀ c ∈ topic_columns,
        (mkRow "A" ["political_content", "news_content"]).vals c = 0 ∨
        (mkRow "A" ["political_content", "news_content"]).vals c = 1) ∧
    (topic_columns.map
        (normalize_row (mkRow "A" ["political_content", "news_content"])).vals).sum = 1 :=
  ⟨by decide, proportional_row_contribution_sum (mkRow "A" ["political_content", "news_content"])
    (by decide) (by decide)⟩

lemma topic_sums_of_explicit_zero (r : Row)
    (hz : ∀ c ∈ topic_columns, c ≠ "unclassified" → r.vals c = 0) :
    topic_sums r = r.vals "unclassified" := by
  have h1 := hz "cryptocurrency_content" (by decide) (by decide)
  have h2 := hz "financial_content" (by decide) (by decide)
  have h3 := hz "gambling_content" (by decide) (by decide)
  have h4 := hz "hateful_extremist_content" (by decide) (by decide)
  have h5 := hz "manosphere_redpill_content" (by decide) (by decide)
  have h6 := hz "medical_health_content" (by decide) (by decide)
  have h7 := hz "news_content" (by decide) (by decide)
  have h8 := hz "political_content" (by decide) (by decide)
  have h9 := hz "religious_content" (by decide) (by decide)
  simp [topic_sums, topic_columns, h1, h2, h3, h4, h5, h6, h7, h8, h9]

/-- **C3 (amended).** The `unclassified` indicator is READ from the data like
any other column (src/sankey.py line 101), not computed.  In proportional
mode, a row whose explicit topic indicators are all `0` contributes its
STORED `unclassified` value to the no-signal flow: `1` when the flag is set
(then `topic_sums = 1`, so normalization leaves it binary), and `0` — not
`1` — when the flag is clear. -/
theorem no_signal_contribution_eq_flag (r : Row)
    (hb : ∀ c ∈ topic_columns, r.vals c = 0 ∨ r.vals c = 1)
    (hz : ∀ c ∈ topic_columns, c ≠ "unclassified" → r.vals c = 0) :
    (normalize_row r).vals "unclassified" = r.vals "unclassified" := by
  have hu : "unclassified" ∈ topic_columns := by decide
  have hs := topic_sums_of_explicit_zero r hz
  rcases hb "unclassified" hu with h | h
  · simp [normalize_row, hu, h]
  · simp [normalize_row, hu, h, hs]

/-- Witness for C3 (amended): a row with only the `unclassified` flag set
contributes exactly `1`. -/
theorem no_signal_contribution_eq_flag_witness :
    (∀ c ∈ topic_columns, c ≠ "unclassified" → (mkRow "A" ["unclassified"]).vals c = 0) ∧
    (normalize_row (mkRow "A" ["unclassified"])).vals "unclassified"
      = (mkRow "A" ["unclassified"]).vals "unclassified" :=
  ⟨by decide, no_signal_contribution_eq_flag (mkRow "A" ["unclassified"])
    (by decide) (by decide)⟩

/-- Input refuting C3 as stated: a single row with every topic column `0`. -/
def df_allzero : List Row := [mkRow "A" []]

/-- **C3 (counterexample).** A row whose explicit indicators are all `0`
does NOT contribute weight `1` to the no-signal flow: with the stored
`unclassified` flag also `0`, the proportional pipeline emits no flows at
all, so the total weight reaching the no-signal topic is `0`, not `1` —
because the no-signal pseudo-indicator is read from the `unclassified`
column, not computed from the explicit indicators. -/
theorem no_signal_binary_weight_counterexample :
    (∀ c ∈ topic_columns, c ≠ "unclassified" → (mkRow "A" []).vals c = 0) ∧
    all_flows df_allzero true = [] ∧
    (((all_flows df_allzero true).filter
        (fun f => f.specific_topic == "Not at-risk")).map Flow.count).sum ≠ 1 := by
  refine ⟨by decide, by with_unfolding_all rfl, ?_⟩
  have h : all_flows df_allzero true = [] := by with_unfolding_all rfl
  rw [h]
  norm_num

/-! ### Empty input (C7) -/

/-- **C7 (counterexample).** On an input that is empty (hence empty after
exclusion), `create_sankey_diagram` returns `None` (src/sankey.py lines
168-170) — no graph at all — rather than an empty `DiagramGraph`. -/
theorem empty_input_returns_no_graph :
    create_sankey_diagram [] false = none ∧ create_sankey_diagram [] true = none :=
  ⟨by with_unfolding_all rfl, by with_unfolding_all rfl⟩

/-- **C7 (amended).** If no rows survive the exclusion filter the aggregation
yields an empty flow list (two empty flow sets), and the build returns
`none` — the Python `return None` of lines 168-170 — instead of an empty
`DiagramGraph`; no error is raised (the function is total). -/
theorem empty_input_yields_none (df : List Row) (p : Bool) :
    (create_sankey_diagram df p = none ↔ topic_flows df p = []) ∧
    (df_filtered df = [] →
      topic_flows df p = [] ∧ broad_flows df p = [] ∧ specific_flows df p = []
        ∧ create_sankey_diagram df p = none) := by
  have hiff : create_sankey_diagram df p = none ↔ topic_flows df p = [] := by
    unfold create_sankey_diagram
    split_ifs with h
    · simpa [List.isEmpty_iff] using h
    · simp only [List.isEmpty_iff] at h
      simp [h]
  refine ⟨hiff, fun h => ?_⟩
  have htf : topic_flows df p = [] := by
    unfold topic_flows
    split_ifs with hp <;> simp [h]
  have haf : all_flows df p = [] := by simp [all_flows, htf]
  refine ⟨htf, ?_, ?_, hiff.mpr htf⟩
  · simp [broad_flows, haf, sorted_unique_pairs]
  · simp [specific_flows, haf, sorted_unique_pairs]

/-- Witness for C7 (amended), at the empty input. -/
theorem empty_input_yields_none_witness :
    df_filtered [] = [] ∧ (topic_flows [] false = [] ∧ broad_flows [] false = []
      ∧ specific_flows [] false = [] ∧ create_sankey_diagram [] false = none) :=
  ⟨rfl, (empty_input_yields_none [] false).2 rfl⟩

/-! ### Generic summation helpers for group-by reasoning -/

section GroupSum

variable {α : Type} {κ : Type} [DecidableEq κ] [BEq κ] [LawfulBEq κ]

lemma sum_map_const_zero (ks : List α) : (ks.map (fun _ => (0 : ℚ))).sum = 0 := by
  induction ks with
  | nil => simp
  | cons k t ih => simp [ih]

lemma sum_map_add (ks : List α) (f g : α → ℚ) :
    (ks.map (fun k => f k + g k)).sum = (ks.map f).sum + (ks.map g).sum := by
  induction ks with
  | nil => simp
  | cons k t ih =>
    simp only [List.map_cons, List.sum_cons, ih]
    ring

lemma sum_map_ite_zero (a : κ) (c : ℚ) : ∀ ks : List κ, a ∉ ks →
    (ks.map (fun k => if a = k then c else 0)).sum = 0
  | [], _ => rfl
  | k :: t, h => by
    have hne : a ≠ k := fun he => h (he ▸ List.mem_cons_self k t)
    rw [List.map_cons, List.sum_cons, if_neg hne, zero_add,
      sum_map_ite_zero a c t (fun hm => h (List.mem_cons_of_mem k hm))]

lemma sum_map_ite (a : κ) (c : ℚ) : ∀ ks : List κ, ks.Nodup → a ∈ ks →
    (ks.map (fun k => if a = k then c else 0)).sum = c
  | [], _, h => absurd h (List.not_mem_nil a)
  | k :: t, hnd, h => by
    by_cases hak : a = k
    · rw [List.map_cons, List.sum_cons, if_pos hak,
        sum_map_ite_zero a c t (fun hm => (List.nodup_cons.mp hnd).1 (hak ▸ hm)), add_zero]
    · have hat : a ∈ t := by
        rcases List.mem_cons.mp h with h1 | h1
        · exact absurd h1 hak
        · exact h1
      rw [List.map_cons, List.sum_cons, if_neg hak, zero_add,
        sum_map_ite a c t (List.nodup_cons.mp hnd).2 hat]

lemma sum_map_ite_count (q : α → Bool) : ∀ rows : List α,
    (rows.map (fun r => if q r = true then (1 : ℚ) else 0)).sum
      = ((rows.filter q).length : ℚ)
  | [] => by simp
  | r :: t => by
    rw [List.map_cons, List.sum_cons, sum_map_ite_count q t, List.filter_cons]
    by_cases h : q r = true
    · rw [if_pos h, if_pos h, List.length_cons]
      push_cast
      ring
    · rw [if_neg h, if_neg h, zero_add]

/-- Summing a weight groupwise over a duplicate-free, covering key list equals
summing it over the underlying list: the core group-by/sum identity. -/
lemma sum_groups (keys : List κ) (hnd : keys.Nodup) (key : α → κ) (w : α → ℚ) :
    ∀ l : List α, (∀ x ∈ l, key x ∈ keys) →
      (keys.map (fun k => ((l.filter (fun x => key x == k)).map w).sum)).sum = (l.map w).sum
  | [], _ => by simp [sum_map_const_zero]
  | x :: t, hcov => by
    have hcovt : ∀ y ∈ t, key y ∈ keys := fun y hy => hcov y (List.mem_cons_of_mem x hy)
    have hx : key x ∈ keys := hcov x (List.mem_cons_self x t)
    have hsplit : ∀ k, ((List.filter (fun y => key y == k) (x :: t)).map w).sum
        = (if key x = k then w x else 0) + ((t.filter (fun y => key y == k)).map w).sum := by
      intro k
      rw [List.filter_cons]
      by_cases hk : key x = k
      · have hb : (key x == k) = true := beq_iff_eq.mpr hk
        rw [hb, if_pos rfl, List.map_cons, List.sum_cons, if_pos hk]
      · have hb : (key x == k) = false := beq_eq_false_iff_ne.mpr hk
        rw [hb, if_neg Bool.false_ne_true, if_neg hk, zero_add]
    calc (keys.map (fun k => ((List.filter (fun y => key y == k) (x :: t)).map w).sum)).sum
        = (keys.map (fun k => (if key x = k then w x else 0)
            + ((t.filter (fun y => key y == k)).map w).sum)).sum := by
          exact congrArg List.sum (List.map_congr_left (fun k _ => hsplit k))
      _ = (keys.map (fun k => if key x = k then w x else 0)).sum
            + (keys.map (fun k => ((t.filter (fun y => key y == k)).map w).sum)).sum :=
          sum_map_add keys _ _
      _ = w x + (t.map w).sum := by
          rw [sum_map_ite (key x) (w x) keys hnd hx, sum_groups keys hnd key w t hcovt]
      _ = ((x :: t).map w).sum := by simp

/-- Group-by/sum restricted to the keys satisfying a predicate equals the sum
over the elements whose key satisfies it. -/
lemma grouped_filter_sum (keys : List κ) (hnd : keys.Nodup) (key : α → κ) (w : α → ℚ)
    (P : κ → Bool) (l : List α) (hcov : ∀ x ∈ l, key x ∈ keys) :
    ((keys.filter P).map (fun k => ((l.filter (fun x => key x == k)).map w).sum)).sum
      = ((l.filter (fun x => P (key x))).map w).sum := by
  have hnd2 : (keys.filter P).Nodup := hnd.filter P
  have hcov2 : ∀ x ∈ l.filter (fun x => P (key x)), key x ∈ keys.filter P := by
    intro x hx
    rcases List.mem_filter.mp hx with ⟨hxl, hpx⟩
    exact List.mem_filter.mpr ⟨hcov x hxl, hpx⟩
  have hinner : ∀ k ∈ keys.filter P,
      ((l.filter (fun x => key x == k)).map w).sum
        = (((l.filter (fun x => P (key x))).filter (fun x => key x == k)).map w).sum := by
    intro k hk
    have hPk : P k = true := (List.mem_filter.mp hk).2
    rw [List.filter_filter]
    refine congrArg List.sum (congrArg (List.map w) (List.filter_congr ?_))
    intro x _
    by_cases hxk : key x = k
    · have hb : (key x == k) = true := beq_iff_eq.mpr hxk
      rw [hb, hxk, hPk]
      rfl
    · have hb : (key x == k) = false := beq_eq_false_iff_ne.mpr hxk
      rw [hb]
      rfl
  calc ((keys.filter P).map (fun k => ((l.filter (fun x => key x == k)).map w).sum)).sum
      = ((keys.filter P).map (fun k =>
          (((l.filter (fun x => P (key x))).filter (fun x => key x == k)).map w).sum)).sum :=
        congrArg List.sum (List.map_congr_left hinner)
    _ = ((l.filter (fun x => P (key x))).map w).sum :=
        sum_groups (keys.filter P) hnd2 key w _ hcov2

end GroupSum

/-! ### Membership facts about the sorted-unique key lists -/

lemma mem_sorted_unique {l : List String} {x : String} : x ∈ sorted_unique l ↔ x ∈ l := by
  unfold sorted_unique
  rw [(List.perm_insertionSort strLeRel _).mem_iff, List.mem_dedup]

lemma nodup_sorted_unique (l : List String) : (sorted_unique l).Nodup :=
  ((List.perm_insertionSort strLeRel _).nodup_iff).mpr l.nodup_dedup

lemma mem_sorted_unique_pairs {l : List (String × String)} {x : String × String} :
    x ∈ sorted_unique_pairs l ↔ x ∈ l := by
  unfold sorted_unique_pairs
  rw [(List.perm_insertionSort pairLeRel _).mem_iff, List.mem_dedup]

lemma nodup_sorted_unique_pairs (l : List (String × String)) : (sorted_unique_pairs l).Nodup :=
  ((List.perm_insertionSort pairLeRel _).nodup_iff).mpr l.nodup_dedup

lemma mem_group_keys {rows : List Row} {cat : String} :
    cat ∈ group_keys rows ↔ ∃ r ∈ rows, r.fameswap_category = cat := by
  unfold group_keys
  rw [mem_sorted_unique, List.mem_map]

/-! ### Summing a weight over the aggregated flow lists (C1) -/

lemma flatten_filter_sum (p : Flow → Bool) (w : Flow → ℚ) : ∀ frames : List (List Flow),
    ((frames.flatten.filter p).map w).sum
      = (frames.map (fun fr => ((fr.filter p).map w).sum)).sum
  | [] => by simp
  | fr :: t => by
    rw [List.flatten_cons, List.filter_append, List.map_append, List.sum_append,
      flatten_filter_sum p w t, List.map_cons, List.sum_cons]

lemma filterMap_sum (g : String → Option (List Flow)) (h : List Flow → ℚ) :
    ∀ cols : List String,
    ((cols.filterMap g).map h).sum = (cols.map (fun c => ((g c).map h).getD 0)).sum
  | [] => by simp
  | c :: t => by
    rw [List.filterMap_cons, List.map_cons, List.sum_cons]
    cases hg : g c with
    | none => simp [filterMap_sum g h t]
    | some fr => simp [filterMap_sum g h t]

lemma filter_map_key_sum {β κ : Type} (g : κ → β) (pred : β → Bool) (predk : κ → Bool)
    (hpred : ∀ k, pred (g k) = predk k) (w : β → ℚ) :
    ∀ keys : List κ, (((keys.map g).filter pred).map w).sum
        = ((keys.filter predk).map (fun k => w (g k))).sum
  | [] => by simp
  | k :: t => by
    rw [List.map_cons, List.filter_cons, hpred k, List.filter_cons]
    by_cases h : predk k = true
    · rw [if_pos h, if_pos h, List.map_cons, List.sum_cons, List.map_cons, List.sum_cons,
        filter_map_key_sum g pred predk hpred w t]
    · rw [if_neg h, if_neg h, filter_map_key_sum g pred predk hpred w t]

lemma filter_beq_self_of_nodup (cat : String) : ∀ ks : List String, ks.Nodup → cat ∈ ks →
    ks.filter (fun k => k == cat) = [cat]
  | [], _, h => absurd h (List.not_mem_nil cat)
  | k :: t, hnd, h => by
    by_cases hak : k = cat
    · subst hak
      rw [List.filter_cons, if_pos (by simp), List.filter_eq_nil_iff.mpr]
      intro x hx
      simp only [beq_iff_eq]
      intro hxk
      exact (List.nodup_cons.mp hnd).1 (hxk ▸ hx)
    · have hmt : cat ∈ t := by
        rcases List.mem_cons.mp h with h1 | h1
        · exact absurd h1.symm hak
        · exact h1
      rw [List.filter_cons, if_neg (by simp [hak]),
        filter_beq_self_of_nodup cat t (List.nodup_cons.mp hnd).2 hmt]

lemma filter_beq_of_not_mem (cat : String) (ks : List String) (h : cat ∉ ks) :
    ks.filter (fun k => k == cat) = [] := by
  apply List.filter_eq_nil_iff.mpr
  intro x hx
  simp only [beq_iff_eq]
  intro hxk
  exact h (hxk ▸ hx)

lemma nodup_group_keys (rows : List Row) : (group_keys rows).Nodup :=
  nodup_sorted_unique _

/-- Summing the counts of the rows of one binary flow frame that carry a given
primary category yields the number of channel rows with that category. -/
lemma frame_cat_sum (base : List Row) (col cat : String) :
    (((flows_frame_binary base col).filter
        (fun f => f.fameswap_category == cat)).map Flow.count).sum
      = (((base.filter (fun r => r.vals col == 1)).filter
          (fun r => r.fameswap_category == cat)).length : ℚ) := by
  unfold flows_frame_binary
  rw [filter_map_key_sum _ _ (fun c => c == cat) (fun k => rfl) Flow.count (group_keys _)]
  by_cases h : cat ∈ group_keys (base.filter (fun r => r.vals col == 1))
  · rw [filter_beq_self_of_nodup cat _ (nodup_group_keys _) h, List.map_cons, List.sum_cons]
    simp
  · rw [filter_beq_of_not_mem cat _ h]
    have hempty : (base.filter (fun r => r.vals col == 1)).filter
        (fun r => r.fameswap_category == cat) = [] := by
      apply List.filter_eq_nil_iff.mpr
      intro r hr
      simp only [beq_iff_eq]
      intro hrc
      exact h (mem_group_keys.mpr ⟨r, hr, hrc⟩)
    rw [hempty]
    simp

lemma filter_swap (p q : Row → Bool) (l : List Row) :
    (l.filter p).filter q = (l.filter q).filter p := by
  rw [List.filter_filter, List.filter_filter]
  exact List.filter_congr (fun x _ => Bool.and_comm (q x) (p x))

lemma sum_count_swap (rows : List Row) : ∀ cols : List String,
    (cols.map (fun c => ((rows.filter (fun r => r.vals c == 1)).length : ℚ))).sum
      = (rows.map (fun r => ((cols.filter (fun c => r.vals c == 1)).length : ℚ))).sum
  | [] => by
    have h : rows.map (fun r => ((List.filter (fun c => r.vals c == 1) []).length : ℚ))
        = rows.map (fun _ => (0 : ℚ)) :=
      List.map_congr_left (fun r _ => by simp)
    rw [List.map_nil, List.sum_nil, h, sum_map_const_zero]
  | c :: ct => by
    have hpoint : rows.map (fun r =>
          ((List.filter (fun x => r.vals x == 1) (c :: ct)).length : ℚ))
        = rows.map (fun r => (if (r.vals c == 1) = true then (1 : ℚ) else 0)
            + ((ct.filter (fun x => r.vals x == 1)).length : ℚ)) := by
      refine List.map_congr_left (fun r _ => ?_)
      rw [List.filter_cons]
      by_cases h : (r.vals c == 1) = true
      · rw [if_pos h, if_pos h, List.length_cons]
        push_cast
        ring
      · rw [if_neg h, if_neg h, zero_add]
    rw [List.map_cons, List.sum_cons, sum_count_swap rows ct, hpoint, sum_map_add,
      sum_map_ite_count (fun r => r.vals c == 1) rows]

/-- Summing, over all per-topic flows carrying a given primary category, the
flow counts equals the total number of indicator cells at `1` (the
`unclassified` column included) over the filtered rows of that category. -/
lemma all_flows_cat_sum_binary (df : List Row) (cat : String) :
    (((all_flows df false).filter (fun f => f.fameswap_category == cat)).map Flow.count).sum
      = (((df_filtered df).filter (fun r => r.fameswap_category == cat)).map
          (fun r => ((topic_columns.filter (fun c => r.vals c == 1)).length : ℚ))).sum := by
  have htf : topic_flows df false = topic_columns.filterMap (fun topic_col =>
      if ((df_filtered df).filter (fun r => r.vals topic_col == 1)).isEmpty then none
      else some (flows_frame_binary (df_filtered df) topic_col)) := by
    unfold topic_flows
    rw [if_neg (by simp)]
  rw [all_flows, htf, flatten_filter_sum, filterMap_sum]
  have hcol : ∀ col ∈ topic_columns,
      (((if ((df_filtered df).filter (fun r => r.vals col == 1)).isEmpty then none
          else some (flows_frame_binary (df_filtered df) col)).map
            (fun fr => ((fr.filter (fun f => f.fameswap_category == cat)).map
              Flow.count).sum)).getD 0)
        = ((((df_filtered df).filter (fun r => r.fameswap_category == cat)).filter
            (fun r => r.vals col == 1)).length : ℚ) := by
    intro col _
    by_cases h : ((df_filtered df).filter (fun r => r.vals col == 1)).isEmpty
    · rw [if_pos h]
      have he : (df_filtered df).filter (fun r => r.vals col == 1) = [] :=
        List.isEmpty_iff.mp h
      rw [← filter_swap, he]
      simp
    · rw [if_neg h]
      simp only [Option.map_some', Option.getD_some]
      rw [frame_cat_sum, filter_swap]
  rw [List.map_congr_left hcol, sum_count_swap]

/-- Summing the grouped level-1→level-2 flow weights of one primary category
recovers the per-topic flow total of that category. -/
lemma broad_flows_cat_sum (df : List Row) (p : Bool) (cat : String) :
    (((broad_flows df p).filter (fun f => f.fameswap_category == cat)).map BFlow.count).sum
      = (((all_flows df p).filter (fun f => f.fameswap_category == cat)).map Flow.count).sum := by
  unfold broad_flows
  rw [filter_map_key_sum _ _ (fun k => k.1 == cat) (fun k => rfl) BFlow.count _]
  exact grouped_filter_sum _ (nodup_sorted_unique_pairs _) bkey Flow.count
    (fun k => k.1 == cat) _ (fun f hf => mem_sorted_unique_pairs.mpr (List.mem_map_of_mem bkey hf))

/-- **C1 (amended).** In binary mode, for every primary category the sum of
the weights of its outgoing level-1→level-2 flows — which are copied
one-to-one into the diagram's level-1→level-2 edges — equals the TOTAL
NUMBER of indicator cells at `1` over that category's rows after exclusion
(the `unclassified` column included, since the code always processes it).
It equals the entity counts asserted by the claim only when each such
entity has at most one active indicator. -/
theorem binary_outgoing_weight_sum (df : List Row) (cat : String) :
    (((broad_flows df false).filter (fun f => f.fameswap_category == cat)).map BFlow.count).sum
      = (((df_filtered df).filter (fun r => r.fameswap_category == cat)).map
          (fun r => ((topic_columns.filter (fun c => r.vals c == 1)).length : ℚ))).sum := by
  rw [broad_flows_cat_sum, all_flows_cat_sum_binary]

/-- Input refuting C1 as stated: one entity with TWO active indicators. -/
def df_multilabel : List Row := [mkRow "A" ["political_content", "news_content"]]

/-- **C1 (counterexample).** One entity of category `A` with two active
indicators: the outgoing level-1→level-2 weight sum is `2`, while the number
of entities with at least one active indicator — and the total entity count —
is `1`.  (The spec's own example scenario, `2+2+1` for three entities,
exhibits the same violation.) -/
theorem binary_conservation_counterexample :
    (((broad_flows df_multilabel false).filter
        (fun f => f.fameswap_category == "A")).map BFlow.count).sum = 2 ∧
    ((df_filtered df_multilabel).filter (fun r => r.fameswap_category == "A"
        && !(topic_columns.filter (fun c => r.vals c == 1)).isEmpty)).length = 1 ∧
    df_multilabel.length = 1 ∧
    (2 : ℚ) ≠ 1 := by
  refine ⟨by with_unfolding_all rfl, by with_unfolding_all rfl, rfl, by norm_num⟩

/-! ### Membership and positivity facts about the flow lists (C6, C9, C5) -/

lemma mem_flows_frame_binary_src {base : List Row} {col : String} {f : Flow}
    (hf : f ∈ flows_frame_binary base col) :
    ∃ r ∈ base, r.fameswap_category = f.fameswap_category := by
  unfold flows_frame_binary at hf
  rcases List.mem_map.mp hf with ⟨c, hc, rfl⟩
  rcases mem_group_keys.mp hc with ⟨r, hr, hrc⟩
  exact ⟨r, (List.mem_filter.mp hr).1, hrc⟩

lemma mem_flows_frame_prop_src {dfn : List Row} {col : String} {f : Flow}
    (hf : f ∈ flows_frame_prop dfn col) :
    ∃ r ∈ dfn, r.fameswap_category = f.fameswap_category := by
  unfold flows_frame_prop at hf
  rcases List.mem_map.mp hf with ⟨c, hc, rfl⟩
  rcases mem_group_keys.mp hc with ⟨r, hr, hrc⟩
  exact ⟨r, (List.mem_filter.mp hr).1, hrc⟩

/-- Every aggregated flow's primary category is carried by some surviving row. -/
lemma mem_all_flows_src (df : List Row) (p : Bool) :
    ∀ f ∈ all_flows df p, ∃ r ∈ df_filtered df, r.fameswap_category = f.fameswap_category := by
  intro f hf
  rw [all_flows] at hf
  rcases List.mem_flatten.mp hf with ⟨fr, hfr, hffr⟩
  unfold topic_flows at hfr
  split_ifs at hfr with hp
  · rcases List.mem_filterMap.mp hfr with ⟨col, _, hg⟩
    split_ifs at hg with hempty
    obtain rfl := Option.some.inj hg
    rcases mem_flows_frame_prop_src hffr with ⟨r2, hr2, hr2c⟩
    rcases List.mem_map.mp hr2 with ⟨r, hr, rfl⟩
    exact ⟨r, hr, hr2c⟩
  · rcases List.mem_filterMap.mp hfr with ⟨col, _, hg⟩
    split_ifs at hg with hempty
    obtain rfl := Option.some.inj hg
    exact mem_flows_frame_binary_src hffr

/-- Every aggregated flow's specific topic is the label of a processed topic
column. -/
lemma mem_all_flows_topic (df : List Row) (p : Bool) :
    ∀ f ∈ all_flows df p, ∃ col ∈ topic_columns, f.specific_topic = TOPIC_LABELS col := by
  intro f hf
  rw [all_flows] at hf
  rcases List.mem_flatten.mp hf with ⟨fr, hfr, hffr⟩
  unfold topic_flows at hfr
  split_ifs at hfr with hp
  · rcases List.mem_filterMap.mp hfr with ⟨col, hcol, hg⟩
    split_ifs at hg with hempty
    obtain rfl := Option.some.inj hg
    unfold flows_frame_prop at hffr
    rcases List.mem_map.mp hffr with ⟨c, _, rfl⟩
    exact ⟨col, hcol, rfl⟩
  · rcases List.mem_filterMap.mp hfr with ⟨col, hcol, hg⟩
    split_ifs at hg with hempty
    obtain rfl := Option.some.inj hg
    unfold flows_frame_binary at hffr
    rcases List.mem_map.mp hffr with ⟨c, _, rfl⟩
    exact ⟨col, hcol, rfl⟩

lemma flows_frame_binary_count_pos {base : List Row} {col : String} {f : Flow}
    (hf : f ∈ flows_frame_binary base col) : 0 < f.count := by
  unfold flows_frame_binary at hf
  rcases List.mem_map.mp hf with ⟨c, hc, rfl⟩
  rcases mem_group_keys.mp hc with ⟨r, hr, hrc⟩
  have hmem : r ∈ (base.filter (fun r2 => r2.vals col == 1)).filter
      (fun r2 => r2.fameswap_category == c) :=
    List.mem_filter.mpr ⟨hr, beq_iff_eq.mpr hrc⟩
  have hpos := List.length_pos_of_mem hmem
  show (0 : ℚ) < (((base.filter (fun r2 => r2.vals col == 1)).filter
      (fun r2 => r2.fameswap_category == c)).length : ℚ)
  exact_mod_cast hpos

lemma flows_frame_prop_count_pos {dfn : List Row} {col : String} {f : Flow}
    (hf : f ∈ flows_frame_prop dfn col) : 0 < f.count := by
  unfold flows_frame_prop at hf
  rcases List.mem_map.mp hf with ⟨c, hc, rfl⟩
  rcases mem_group_keys.mp hc with ⟨r, hr, hrc⟩
  apply List.sum_pos
  · intro x hx
    rcases List.mem_map.mp hx with ⟨r2, hr2, rfl⟩
    have := (List.mem_filter.mp (List.mem_filter.mp hr2).1).2
    exact of_decide_eq_true this
  · have hmem : r ∈ (dfn.filter (fun r2 => decide (0 < r2.vals col))).filter
        (fun r2 => r2.fameswap_category == c) :=
      List.mem_filter.mpr ⟨hr, beq_iff_eq.mpr hrc⟩
    intro hnil
    rw [List.map_eq_nil_iff] at hnil
    rw [hnil] at hmem
    exact List.not_mem_nil r hmem

lemma all_flows_count_pos (df : List Row) (p : Bool) :
    ∀ f ∈ all_flows df p, 0 < f.count := by
  intro f hf
  rw [all_flows] at hf
  rcases List.mem_flatten.mp hf with ⟨fr, hfr, hffr⟩
  unfold topic_flows at hfr
  split_ifs at hfr with hp
  · rcases List.mem_filterMap.mp hfr with ⟨col, _, hg⟩
    split_ifs at hg with hempty
    obtain rfl := Option.some.inj hg
    exact flows_frame_prop_count_pos hffr
  · rcases List.mem_filterMap.mp hfr with ⟨col, _, hg⟩
    split_ifs at hg with hempty
    obtain rfl := Option.some.inj hg
    exact flows_frame_binary_count_pos hffr

lemma broad_flows_count_pos (df : List Row) (p : Bool) :
    ∀ bf ∈ broad_flows df p, 0 < bf.count := by
  intro bf hbf
  unfold broad_flows at hbf
  rcases List.mem_map.mp hbf with ⟨k, hk, rfl⟩
  rcases List.mem_map.mp (mem_sorted_unique_pairs.mp hk) with ⟨f, hfaf, hfk⟩
  apply List.sum_pos
  · intro x hx
    rcases List.mem_map.mp hx with ⟨f2, hf2, rfl⟩
    exact all_flows_count_pos df p f2 (List.mem_filter.mp hf2).1
  · have hmem : f ∈ (all_flows df p).filter (fun f2 => bkey f2 == k) :=
      List.mem_filter.mpr ⟨hfaf, beq_iff_eq.mpr hfk⟩
    intro hnil
    rw [List.map_eq_nil_iff] at hnil
    rw [hnil] at hmem
    exact List.not_mem_nil f hmem

lemma specific_flows_count_pos (df : List Row) (p : Bool) :
    ∀ sf ∈ specific_flows df p, 0 < sf.count := by
  intro sf hsf
  unfold specific_flows at hsf
  rcases List.mem_map.mp hsf with ⟨k, hk, rfl⟩
  rcases List.mem_map.mp (mem_sorted_unique_pairs.mp hk) with ⟨f, hfaf, hfk⟩
  apply List.sum_pos
  · intro x hx
    rcases List.mem_map.mp hx with ⟨f2, hf2, rfl⟩
    exact all_flows_count_pos df p f2 (List.mem_filter.mp hf2).1
  · have hmem : f ∈ (all_flows df p).filter (fun f2 => skey f2 == k) :=
      List.mem_filter.mpr ⟨hfaf, beq_iff_eq.mpr hfk⟩
    intro hnil
    rw [List.map_eq_nil_iff] at hnil
    rw [hnil] at hmem
    exact List.not_mem_nil f hmem

lemma create_some_elim {df : List Row} {p : Bool} {g : DiagramGraph}
    (h : create_sankey_diagram df p = some g) :
    g.nodes = fameswap_nodes (fameswap_categories df)
        ++ broad_nodes (broad_category_list df p) ++ specific_nodes (specific_topics df p) ∧
    g.edges = broad_edges df p ++ specific_edges df p := by
  unfold create_sankey_diagram at h
  split_ifs at h with hempty
  obtain rfl := Option.some.inj h
  exact ⟨rfl, rfl⟩

/-- **C6.** Every edge of a built diagram has strictly positive weight:
zero-weight flows are never emitted (in either aggregation mode). -/
theorem edge_values_positive (df : List Row) (p : Bool) (g : DiagramGraph)
    (h : create_sankey_diagram df p = some g) : ∀ e ∈ g.edges, 0 < e.value := by
  intro e he
  rw [(create_some_elim h).2] at he
  rcases List.mem_append.mp he with he | he
  · unfold broad_edges at he
    rcases List.mem_map.mp he with ⟨row, hrow, rfl⟩
    exact broad_flows_count_pos df p row
      ((List.perm_insertionSort _ _).mem_iff.mp hrow)
  · unfold specific_edges at he
    rcases List.mem_map.mp he with ⟨row, hrow, rfl⟩
    exact specific_flows_count_pos df p row
      ((List.perm_insertionSort _ _).mem_iff.mp hrow)

/-- A one-row dataset used to witness C6 concretely. -/
def df_gambling : List Row := [mkRow "B" ["gambling_content"]]

/-- The diagram built from `df_gambling` (computed by hand from the source):
one visible node per level and two fully opaque edges of weight `1`. -/
def g_gambling : DiagramGraph :=
  { nodes := [{ label := "B", color := "#A1B2B9", x := 1/100, y := 1/20 },
              { label := "", color := "#4ECDC4", x := 1/2, y := 7/10 },
              { label := "Gambling", color := "#5DADE2", x := 4/5, y := 3/4 }],
    edges := [{ source := 0, target := 1, value := 1, color := "rgba(78, 205, 196, 0.6)" },
              { source := 1, target := 2, value := 1, color := "rgba(93, 173, 226, 0.6)" }] }

/-- Witness for C6 at a concrete input. -/
theorem edge_values_positive_witness :
    create_sankey_diagram df_gambling false = some g_gambling ∧
    ∀ e ∈ g_gambling.edges, 0 < e.value :=
  ⟨by with_unfolding_all rfl,
    edge_values_positive df_gambling false g_gambling (by with_unfolding_all rfl)⟩

/-! ### Exclusion of the `Beauty & Makeup` category (C9) -/

lemma df_filtered_idem (df : List Row) :
    df_filtered (df.filter (fun r => r.fameswap_category != "Beauty & Makeup"))
      = df_filtered df := by
  unfold df_filtered
  rw [List.filter_filter]
  exact List.filter_congr (fun r _ => Bool.and_self _)

/-- **C9.** Excluding `Beauty & Makeup`: the category is absent from the
level-1 category list, no aggregated level-1→level-2 flow carries it, and
both aggregated flow sets are identical to those computed from the dataset
with the excluded rows physically removed — so every other category's flow
weights are unaffected by the excluded rows. -/
theorem beauty_makeup_exclusion (df : List Row) (p : Bool) :
    "Beauty & Makeup" ∉ fameswap_categories df ∧
    (∀ bf ∈ broad_flows df p, bf.fameswap_category ≠ "Beauty & Makeup") ∧
    broad_flows df p
      = broad_flows (df.filter (fun r => r.fameswap_category != "Beauty & Makeup")) p ∧
    specific_flows df p
      = specific_flows (df.filter (fun r => r.fameswap_category != "Beauty & Makeup")) p := by
  have htf : topic_flows (df.filter (fun r => r.fameswap_category != "Beauty & Makeup")) p
      = topic_flows df p := by
    unfold topic_flows
    rw [df_filtered_idem]
  have haf : all_flows (df.filter (fun r => r.fameswap_category != "Beauty & Makeup")) p
      = all_flows df p := by
    rw [all_flows, all_flows, htf]
  refine ⟨?_, ?_, ?_, ?_⟩
  · intro h
    have := (List.mem_filter.mp h).2
    simp at this
  · intro bf hbf
    unfold broad_flows at hbf
    rcases List.mem_map.mp hbf with ⟨k, hk, rfl⟩
    rcases List.mem_map.mp (mem_sorted_unique_pairs.mp hk) with ⟨f, hfaf, hfk⟩
    rcases mem_all_flows_src df p f hfaf with ⟨r, hr, hrc⟩
    have hrb := (List.mem_filter.mp hr).2
    simp only [bne_iff_ne, ne_eq] at hrb
    intro hbm
    have hk1 : k.1 = "Beauty & Makeup" := hbm
    have hf1 : f.fameswap_category = k.1 := congrArg Prod.fst hfk
    exact hrb (by rw [hrc, hf1, hk1])
  · unfold broad_flows
    rw [haf]
  · unfold specific_flows
    rw [haf]

/-! ### Node x positions (C8) -/

lemma fameswap_nodes_x {cats : List String} {n : NodeInfo}
    (hn : n ∈ fameswap_nodes cats) : n.x = 0.01 := by
  unfold fameswap_nodes at hn
  rcases List.mem_map.mp hn with ⟨q, _, rfl⟩
  rfl

lemma broad_nodes_x {bl : List String} {n : NodeInfo}
    (hn : n ∈ broad_nodes bl) : n.x = 0.3 ∨ n.x = 0.5 := by
  unfold broad_nodes at hn
  rcases List.mem_map.mp hn with ⟨cat, _, rfl⟩
  by_cases h : cat ∈ invisible_nodes
  · rw [if_pos h]
    exact Or.inl rfl
  · rw [if_neg h]
    exact Or.inr rfl

lemma specific_nodes_x {st : List String} {n : NodeInfo}
    (hn : n ∈ specific_nodes st) : n.x = 2 ∨ n.x = 0.8 := by
  unfold specific_nodes at hn
  rcases List.mem_map.mp hn with ⟨cat, _, rfl⟩
  by_cases h : cat ∈ invisible_nodes
  · rw [if_pos h]
    exact Or.inl rfl
  · rw [if_neg h]
    exact Or.inr rfl

/-- **C8 (amended).** Node x positions by level, as the code actually assigns
them: level 1 always `0.01`; level 2 `0.5` for visible nodes but `0.3` for
invisible ones; level 3 `0.8` for visible nodes but `2` for invisible ones —
up to FIVE distinct column values, not three.  Strict increase by level does
hold: every level-2 x exceeds every level-1 x and every level-3 x exceeds
every level-2 x. -/
theorem node_x_positions (df : List Row) (p : Bool) (g : DiagramGraph)
    (h : create_sankey_diagram df p = some g) :
    g.nodes = fameswap_nodes (fameswap_categories df)
        ++ broad_nodes (broad_category_list df p) ++ specific_nodes (specific_topics df p) ∧
    (∀ n ∈ fameswap_nodes (fameswap_categories df), n.x = 0.01) ∧
    (∀ n ∈ broad_nodes (broad_category_list df p), n.x = 0.3 ∨ n.x = 0.5) ∧
    (∀ n ∈ specific_nodes (specific_topics df p), n.x = 2 ∨ n.x = 0.8) ∧
    (∀ n1 ∈ fameswap_nodes (fameswap_categories df),
      ∀ n2 ∈ broad_nodes (broad_category_list df p), n1.x < n2.x) ∧
    (∀ n2 ∈ broad_nodes (broad_category_list df p),
      ∀ n3 ∈ specific_nodes (specific_topics df p), n2.x < n3.x) := by
  refine ⟨(create_some_elim h).1, fun n hn => fameswap_nodes_x hn,
    fun n hn => broad_nodes_x hn, fun n hn => specific_nodes_x hn, ?_, ?_⟩
  · intro n1 h1 n2 h2
    rw [fameswap_nodes_x h1]
    rcases broad_nodes_x h2 with h | h <;> rw [h] <;> norm_num
  · intro n2 h2 n3 h3
    rcases broad_nodes_x h2 with h | h <;> rcases specific_nodes_x h3 with h' | h' <;>
      rw [h, h'] <;> norm_num

/-- Input refuting C8 as stated: both an invisible and a visible node occur
at levels 2 and 3. -/
def df_levels : List Row := [mkRow "A" ["political_content"], mkRow "A" ["unclassified"]]

/-- The diagram built from `df_levels` (traced by hand from the source). -/
def g_levels : DiagramGraph :=
  { nodes := [{ label := "A", color := "#A1B2B9", x := 1/100, y := 1/20 },
              { label := "", color := "rgba(0,0,0,0)", x := 3/10, y := 1/1000 },
              { label := "", color := "#FF6B6B", x := 1/2, y := 3/10 },
              { label := "", color := "rgba(0,0,0,0)", x := 2, y := 1/10000 },
              { label := "Political", color := "#EC7063", x := 4/5, y := 1/10 }],
    edges := [{ source := 0, target := 1, value := 1, color := "rgba(0,0,0,0)" },
              { source := 0, target := 2, value := 1, color := "rgba(255, 107, 107, 0.6)" },
              { source := 1, target := 3, value := 1, color := "rgba(0,0,0,0)" },
              { source := 2, target := 4, value := 1, color := "rgba(236, 112, 99, 0.6)" }] }

/-- **C8 (counterexample).** In the diagram built from `df_levels` the five
nodes have x positions `[0.01, 0.3, 0.5, 2, 0.8]`.  The nodes at indices 1
and 2 are both LEVEL-2 nodes (one level-1 category, two level-2 categories),
yet their x positions differ (`0.3` vs `0.5`), and more than three distinct
x values occur — so x is NOT one of exactly three level-determined column
values. -/
theorem three_column_counterexample :
    create_sankey_diagram df_levels false = some g_levels ∧
    g_levels.nodes.map NodeInfo.x = [1/100, 3/10, 1/2, 2, 4/5] ∧
    (fameswap_categories df_levels).length = 1 ∧
    (broad_category_list df_levels false).length = 2 ∧
    ((3 : ℚ)/10 ≠ 1/2 ∧ (1 : ℚ)/100 ≠ 3/10 ∧ (1 : ℚ)/2 ≠ 4/5 ∧ (4 : ℚ)/5 ≠ 2) := by
  refine ⟨by with_unfolding_all rfl, by with_unfolding_all rfl,
    by with_unfolding_all rfl, by with_unfolding_all rfl, by norm_num⟩

/-- Witness for C8 (amended) at a concrete input. -/
theorem node_x_positions_witness :
    create_sankey_diagram df_levels false = some g_levels ∧
    (∀ n1 ∈ fameswap_nodes (fameswap_categories df_levels),
      ∀ n2 ∈ broad_nodes (broad_category_list df_levels false), n1.x < n2.x) :=
  ⟨by with_unfolding_all rfl,
    (node_x_positions df_levels false g_levels (by with_unfolding_all rfl)).2.2.2.2.1⟩

/-! ### The node-index dictionary (C5, C10) -/

lemma node_mapping_foldl_invariant (labels : List String) (c : String) :
    ∀ (ps : List (ℕ × String)) (acc : Option ℕ),
      (∀ j, acc = some j → labels[j]? = some c) →
      (∀ q ∈ ps, labels[q.1]? = some q.2) →
      ∀ j, ps.foldl (fun a q => if q.2 = c then some q.1 else a) acc = some j →
        labels[j]? = some c
  | [], _, hacc, _, j, hres => hacc j hres
  | q :: t, acc, hacc, hwf, j, hres => by
    rw [List.foldl_cons] at hres
    refine node_mapping_foldl_invariant labels c t _ ?_
      (fun q2 hq2 => hwf q2 (List.mem_cons_of_mem q hq2)) j hres
    intro j2 hj2
    by_cases hqc : q.2 = c
    · rw [if_pos hqc] at hj2
      obtain rfl := Option.some.inj hj2
      exact hqc ▸ hwf q (List.mem_cons_self q t)
    · rw [if_neg hqc] at hj2
      exact hacc j2 hj2

lemma node_mapping_foldl_isSome (c : String) :
    ∀ (ps : List (ℕ × String)) (acc : Option ℕ),
      (acc.isSome = true ∨ ∃ q ∈ ps, q.2 = c) →
      (ps.foldl (fun a q => if q.2 = c then some q.1 else a) acc).isSome = true
  | [], _, h => by
    rcases h with h | ⟨q, hq, _⟩
    · exact h
    · exact absurd hq (List.not_mem_nil q)
  | q :: t, acc, h => by
    rw [List.foldl_cons]
    apply node_mapping_foldl_isSome c t
    by_cases hqc : q.2 = c
    · rw [if_pos hqc]
      exact Or.inl rfl
    · rw [if_neg hqc]
      rcases h with h | ⟨q2, hq2, hq2c⟩
      · exact Or.inl h
      · rcases List.mem_cons.mp hq2 with rfl | hq2t
        · exact absurd hq2c hqc
        · exact Or.inr ⟨q2, hq2t, hq2c⟩

/-- The dictionary built at src/sankey.py lines 281-292 maps every present
label to an index holding that label (the last such index). -/
lemma node_mapping_mem_getElem (labels : List String) (c : String) (hc : c ∈ labels) :
    labels[node_mapping labels c]? = some c := by
  have hwf : ∀ q ∈ labels.enum, labels[q.1]? = some q.2 := by
    intro q hq
    exact List.mem_enum_iff_getElem?.mp hq
  have hex : ∃ q ∈ labels.enum, q.2 = c := by
    rcases List.mem_iff_getElem?.mp hc with ⟨i, hi⟩
    exact ⟨(i, c), List.mem_enum_iff_getElem?.mpr hi, rfl⟩
  have hsome := node_mapping_foldl_isSome c labels.enum none (Or.inr hex)
  obtain ⟨j, hj⟩ := Option.isSome_iff_exists.mp hsome
  unfold node_mapping
  rw [hj, Option.getD_some]
  exact node_mapping_foldl_invariant labels c labels.enum none
    (by intro j2 h2; cases h2) hwf j hj

/-- With duplicate-free labels the dictionary index is exactly the position
in the concatenated list. -/
lemma node_mapping_eq_indexOf {labels : List String} (hnd : labels.Nodup) {c : String}
    (hc : c ∈ labels) : node_mapping labels c = labels.indexOf c := by
  have h1 := node_mapping_mem_getElem labels c hc
  have hlt1 : node_mapping labels c < labels.length := by
    rcases List.getElem?_eq_some.mp h1 with ⟨hl, _⟩
    exact hl
  have hlt2 : labels.indexOf c < labels.length := List.indexOf_lt_length.mpr hc
  have h2 : labels[labels.indexOf c]? = some c :=
    List.getElem?_eq_some.mpr ⟨hlt2, List.getElem_indexOf hlt2⟩
  exact List.getElem?_inj hlt1 hnd (h1.trans h2.symm)

/-- The indices of the invisible nodes ('Other' in the level-2 segment,
'Not at-risk' in the level-3 segment) of the built diagram's node list. -/
def invisible_indices (df : List Row) (p : Bool) : List ℕ :=
  ((broad_category_list df p).enum.filterMap (fun q =>
      if q.2 ∈ invisible_nodes then some ((fameswap_categories df).length + q.1) else none))
    ++ ((specific_topics df p).enum.filterMap (fun q =>
      if q.2 ∈ invisible_nodes then
        some ((fameswap_categories df).length + (broad_category_list df p).length + q.1)
      else none))

lemma length_fameswap_nodes (cats : List String) : (fameswap_nodes cats).length = cats.length := by
  unfold fameswap_nodes
  rw [List.length_map, List.enum_length]

lemma length_broad_nodes (bl : List String) : (broad_nodes bl).length = bl.length :=
  List.length_map bl _

lemma mem_invisible_indices {df : List Row} {p : Bool} {i : ℕ}
    (hi : i ∈ invisible_indices df p) :
    ∃ lab ∈ invisible_nodes, (node_labels df p)[i]? = some lab := by
  unfold invisible_indices at hi
  rcases List.mem_append.mp hi with hi | hi
  · rcases List.mem_filterMap.mp hi with ⟨q, hq, hval⟩
    split_ifs at hval with hinv
    obtain rfl := Option.some.inj hval
    have hget : (broad_category_list df p)[q.1]? = some q.2 :=
      List.mem_enum_iff_getElem?.mp hq
    have hlt : q.1 < (broad_category_list df p).length := by
      rcases List.getElem?_eq_some.mp hget with ⟨hl, _⟩
      exact hl
    refine ⟨q.2, hinv, ?_⟩
    unfold node_labels
    rw [List.append_assoc, List.getElem?_append_right (by omega), Nat.add_sub_cancel_left,
      List.getElem?_append_left (by omega)]
    exact hget
  · rcases List.mem_filterMap.mp hi with ⟨q, hq, hval⟩
    split_ifs at hval with hinv
    obtain rfl := Option.some.inj hval
    have hget : (specific_topics df p)[q.1]? = some q.2 :=
      List.mem_enum_iff_getElem?.mp hq
    refine ⟨q.2, hinv, ?_⟩
    unfold node_labels
    rw [Nat.add_assoc, List.append_assoc, List.getElem?_append_right (by omega),
      Nat.add_sub_cancel_left, List.getElem?_append_right (by omega), Nat.add_sub_cancel_left]
    exact hget

lemma invisible_indices_nodes {df : List Row} {p : Bool} {g : DiagramGraph}
    (h : create_sankey_diagram df p = some g) {i : ℕ} (hi : i ∈ invisible_indices df p) :
    ∃ n, g.nodes[i]? = some n ∧ n.label = "" ∧ n.color = "rgba(0,0,0,0)" := by
  unfold invisible_indices at hi
  rw [(create_some_elim h).1]
  rcases List.mem_append.mp hi with hi | hi
  · rcases List.mem_filterMap.mp hi with ⟨q, hq, hval⟩
    split_ifs at hval with hinv
    obtain rfl := Option.some.inj hval
    have hget : (broad_category_list df p)[q.1]? = some q.2 :=
      List.mem_enum_iff_getElem?.mp hq
    have hlt : q.1 < (broad_category_list df p).length := by
      rcases List.getElem?_eq_some.mp hget with ⟨hl, _⟩
      exact hl
    rw [List.append_assoc,
      List.getElem?_append_right (by rw [length_fameswap_nodes]; omega),
      length_fameswap_nodes, Nat.add_sub_cancel_left,
      List.getElem?_append_left (by rw [length_broad_nodes]; omega)]
    unfold broad_nodes
    rw [List.getElem?_map, hget, Option.map_some']
    exact ⟨_, rfl, by rw [if_pos hinv], by rw [if_pos hinv]⟩
  · rcases List.mem_filterMap.mp hi with ⟨q, hq, hval⟩
    split_ifs at hval with hinv
    obtain rfl := Option.some.inj hval
    have hget : (specific_topics df p)[q.1]? = some q.2 :=
      List.mem_enum_iff_getElem?.mp hq
    rw [Nat.add_assoc, List.append_assoc,
      List.getElem?_append_right (by rw [length_fameswap_nodes]; omega),
      length_fameswap_nodes, Nat.add_sub_cancel_left,
      List.getElem?_append_right (by rw [length_broad_nodes]; omega),
      length_broad_nodes, Nat.add_sub_cancel_left]
    unfold specific_nodes
    rw [List.getElem?_map, hget, Option.map_some']
    exact ⟨_, rfl, by rw [if_pos hinv], by rw [if_pos hinv]⟩

/-- An index whose label is NOT invisible is not an invisible index. -/
lemma not_invisible_index {df : List Row} {p : Bool} {i : ℕ} {c : String}
    (hget : (node_labels df p)[i]? = some c) (hc : c ∉ invisible_nodes) :
    i ∉ invisible_indices df p := by
  intro hi
  rcases mem_invisible_indices hi with ⟨lab, hlab, hget2⟩
  rw [hget] at hget2
  exact hc (Option.some.inj hget2 ▸ hlab)

lemma mem_node_labels_fw {df : List Row} {p : Bool} {c : String}
    (hc : c ∈ fameswap_categories df) : c ∈ node_labels df p := by
  unfold node_labels
  exact List.mem_append_left _ (List.mem_append_left _ hc)

lemma mem_node_labels_bl {df : List Row} {p : Bool} {c : String}
    (hc : c ∈ broad_category_list df p) : c ∈ node_labels df p := by
  unfold node_labels
  exact List.mem_append_left _ (List.mem_append_right _ hc)

lemma mem_node_labels_st {df : List Row} {p : Bool} {c : String}
    (hc : c ∈ specific_topics df p) : c ∈ node_labels df p := by
  unfold node_labels
  exact List.mem_append_right _ hc

/-- Every grouped level-1→level-2 flow names a surviving row's primary
category (present in the level-1 list) and an observed broad category
(present in the level-2 list). -/
lemma broad_flow_fields (df : List Row) (p : Bool) :
    ∀ bf ∈ broad_flows df p,
      bf.fameswap_category ∈ fameswap_categories df ∧
      (∃ r ∈ df_filtered df, r.fameswap_category = bf.fameswap_category) ∧
      bf.broad_category ∈ broad_category_list df p := by
  intro bf hbf
  have hbb : bf.broad_category ∈ broad_category_list df p := by
    unfold broad_category_list
    rw [mem_get_ordered_list, List.mem_dedup]
    exact List.mem_map_of_mem BFlow.broad_category hbf
  unfold broad_flows at hbf
  rcases List.mem_map.mp hbf with ⟨k, hk, rfl⟩
  rcases List.mem_map.mp (mem_sorted_unique_pairs.mp hk) with ⟨f, hfaf, hfk⟩
  rcases mem_all_flows_src df p f hfaf with ⟨r, hr, hrc⟩
  have hf1 : f.fameswap_category = k.1 := congrArg Prod.fst hfk
  have hrk : r.fameswap_category = k.1 := hrc.trans hf1
  have hmemfw : k.1 ∈ fameswap_categories df := by
    unfold fameswap_categories
    apply List.mem_filter.mpr
    unfold df_filtered at hr
    constructor
    · rw [mem_get_ordered_list]
      unfold available_fameswap
      rw [List.mem_dedup]
      exact hrk ▸ List.mem_map_of_mem Row.fameswap_category (List.mem_of_mem_filter hr)
    · have hbm := (List.mem_filter.mp hr).2
      rw [hrk] at hbm
      exact hbm
  exact ⟨hmemfw, ⟨r, hr, hrk⟩, hbb⟩

/-- Every grouped level-2→level-3 flow names an observed broad category and
an observed specific topic. -/
lemma specific_flow_fields (df : List Row) (p : Bool) :
    ∀ sf ∈ specific_flows df p,
      sf.broad_category ∈ broad_category_list df p ∧
      sf.specific_topic ∈ specific_topics df p := by
  intro sf hsf
  have hst : sf.specific_topic ∈ specific_topics df p := by
    unfold specific_topics
    rw [mem_get_ordered_list, List.mem_dedup]
    exact List.mem_map_of_mem SFlow.specific_topic hsf
  unfold specific_flows at hsf
  rcases List.mem_map.mp hsf with ⟨k, hk, rfl⟩
  rcases List.mem_map.mp (mem_sorted_unique_pairs.mp hk) with ⟨f, hfaf, hfk⟩
  have hk1 : topic_to_broad f.specific_topic = k.1 := congrArg Prod.fst hfk
  have hbmem : k.1 ∈ broad_category_list df p := by
    unfold broad_category_list
    rw [mem_get_ordered_list, List.mem_dedup]
    have hb2 : bkey f ∈ sorted_unique_pairs ((all_flows df p).map bkey) :=
      mem_sorted_unique_pairs.mpr (List.mem_map_of_mem bkey hfaf)
    have hmem : BFlow.mk (bkey f).1 (bkey f).2
        ((((all_flows df p).filter (fun f2 => bkey f2 == bkey f)).map Flow.count).sum)
        ∈ broad_flows df p := by
      unfold broad_flows
      exact List.mem_map_of_mem _ hb2
    have hmm := List.mem_map_of_mem BFlow.broad_category hmem
    rw [← hk1]
    exact hmm
  exact ⟨hbmem, hst⟩

/-- **C5 (amended).** Provided no primary category label coincides with an
invisible label (`'Other'`, `'Not at-risk'`): every edge of the built diagram
with an invisible-node endpoint is fully transparent, and every invisible
node has an empty label and a fully transparent fill.  (Without the proviso
the node-index dictionary can route a level-1 category named `'Other'` onto
the invisible level-2 node while the edge keeps an opaque color — see the
counterexample.) -/
theorem invisible_edges_transparent (df : List Row) (p : Bool) (g : DiagramGraph)
    (h : create_sankey_diagram df p = some g)
    (hcat : ∀ r ∈ df, r.fameswap_category ∉ invisible_nodes) :
    (∀ e ∈ g.edges,
      (e.source ∈ invisible_indices df p ∨ e.target ∈ invisible_indices df p) →
      e.color = "rgba(0,0,0,0)") ∧
    (∀ i ∈ invisible_indices df p, ∃ n, g.nodes[i]? = some n ∧
      n.label = "" ∧ n.color = "rgba(0,0,0,0)") := by
  refine ⟨?_, fun i hi => invisible_indices_nodes h hi⟩
  intro e he hinv
  rw [(create_some_elim h).2] at he
  rcases List.mem_append.mp he with he | he
  · unfold broad_edges at he
    rcases List.mem_map.mp he with ⟨row, hrow, rfl⟩
    have hrowf : row ∈ broad_flows df p := (List.perm_insertionSort _ _).mem_iff.mp hrow
    by_cases hb : row.broad_category ∈ invisible_nodes
    · show (if row.broad_category ∈ invisible_nodes then "rgba(0,0,0,0)"
        else hex_to_rgba (broad_colors row.broad_category) "0.6") = "rgba(0,0,0,0)"
      rw [if_pos hb]
    · exfalso
      rcases broad_flow_fields df p row hrowf with ⟨hfw, ⟨r, hr, hrk⟩, hbl⟩
      have hsrc := node_mapping_mem_getElem (node_labels df p) row.fameswap_category
        (mem_node_labels_fw hfw)
      have htgt := node_mapping_mem_getElem (node_labels df p) row.broad_category
        (mem_node_labels_bl hbl)
      have hfs_notinv : row.fameswap_category ∉ invisible_nodes := by
        rw [← hrk]
        refine hcat r ?_
        unfold df_filtered at hr
        exact List.mem_of_mem_filter hr
      rcases hinv with hinv | hinv
      · exact not_invisible_index hsrc hfs_notinv hinv
      · exact not_invisible_index htgt hb hinv
  · unfold specific_edges at he
    rcases List.mem_map.mp he with ⟨row, hrow, rfl⟩
    have hrowf : row ∈ specific_flows df p := (List.perm_insertionSort _ _).mem_iff.mp hrow
    by_cases hb : row.specific_topic ∈ invisible_nodes ∨ row.broad_category ∈ invisible_nodes
    · show (if row.specific_topic ∈ invisible_nodes ∨ row.broad_category ∈ invisible_nodes
        then "rgba(0,0,0,0)" else hex_to_rgba (topic_colors row.specific_topic) "0.6")
          = "rgba(0,0,0,0)"
      rw [if_pos hb]
    · exfalso
      push_neg at hb
      rcases specific_flow_fields df p row hrowf with ⟨hbl, hst⟩
      have hsrc := node_mapping_mem_getElem (node_labels df p) row.broad_category
        (mem_node_labels_bl hbl)
      have htgt := node_mapping_mem_getElem (node_labels df p) row.specific_topic
        (mem_node_labels_st hst)
      rcases hinv with hinv | hinv
      · exact not_invisible_index hsrc hb.2 hinv
      · exact not_invisible_index htgt hb.1 hinv

/-- Input refuting C5 as stated: a primary category literally named
`'Other'`, so its label collides with the invisible level-2 bucket. -/
def df_other : List Row :=
  [mkRow "Other" ["political_content"], mkRow "Other" ["unclassified"]]

/-- The diagram built from `df_other` (traced by hand from the source); the
label `'Other'` occurs at level 1 (node 0) and level 2 (node 1), and the
node dictionary maps it to index 1. -/
def g_other : DiagramGraph :=
  { nodes := [{ label := "Other", color := "#A1B2B9", x := 1/100, y := 1/20 },
              { label := "", color := "rgba(0,0,0,0)", x := 3/10, y := 1/1000 },
              { label := "", color := "#FF6B6B", x := 1/2, y := 3/10 },
              { label := "", color := "rgba(0,0,0,0)", x := 2, y := 1/10000 },
              { label := "Political", color := "#EC7063", x := 4/5, y := 1/10 }],
    edges := [{ source := 1, target := 1, value := 1, color := "rgba(0,0,0,0)" },
              { source := 1, target := 2, value := 1, color := "rgba(255, 107, 107, 0.6)" },
              { source := 1, target := 3, value := 1, color := "rgba(0,0,0,0)" },
              { source := 2, target := 4, value := 1, color := "rgba(236, 112, 99, 0.6)" }] }

/-- **C5 (counterexample).** In the diagram built from `df_other` the
invisible nodes sit at indices 1 and 3, yet the edge
`{source 1, target 2, color "rgba(255, 107, 107, 0.6)"}` has the invisible
level-2 `'Other'` node as its SOURCE and an opaque color: an edge touching
an invisible node that is not fully transparent. -/
theorem invisible_edges_counterexample :
    create_sankey_diagram df_other false = some g_other ∧
    invisible_indices df_other false = [1, 3] ∧
    ¬ (∀ e ∈ g_other.edges,
        (e.source ∈ ([1, 3] : List ℕ) ∨ e.target ∈ ([1, 3] : List ℕ)) →
        e.color = "rgba(0,0,0,0)") :=
  ⟨by with_unfolding_all rfl, by with_unfolding_all rfl, by decide⟩

/-- A collision-free dataset used to witness C5 (amended). -/
def df_signal : List Row := [mkRow "A" ["political_content"], mkRow "A" ["unclassified"]]

/-- The diagram built from `df_signal` (traced by hand from the source). -/
def g_signal : DiagramGraph :=
  { nodes := [{ label := "A", color := "#A1B2B9", x := 1/100, y := 1/20 },
              { label := "", color := "rgba(0,0,0,0)", x := 3/10, y := 1/1000 },
              { label := "", color := "#FF6B6B", x := 1/2, y := 3/10 },
              { label := "", color := "rgba(0,0,0,0)", x := 2, y := 1/10000 },
              { label := "Political", color := "#EC7063", x := 4/5, y := 1/10 }],
    edges := [{ source := 0, target := 1, value := 1, color := "rgba(0,0,0,0)" },
              { source := 0, target := 2, value := 1, color := "rgba(255, 107, 107, 0.6)" },
              { source := 1, target := 3, value := 1, color := "rgba(0,0,0,0)" },
              { source := 2, target := 4, value := 1, color := "rgba(236, 112, 99, 0.6)" }] }

/-- Witness for C5 (amended) at a concrete conflict-free input. -/
theorem invisible_edges_transparent_witness :
    create_sankey_diagram df_signal false = some g_signal ∧
    (∀ r ∈ df_signal, r.fameswap_category ∉ invisible_nodes) ∧
    (∀ e ∈ g_signal.edges,
      (e.source ∈ invisible_indices df_signal false ∨
        e.target ∈ invisible_indices df_signal false) →
      e.color = "rgba(0,0,0,0)") :=
  ⟨by with_unfolding_all rfl, by decide,
    (invisible_edges_transparent df_signal false g_signal
      (by with_unfolding_all rfl) (by decide)).1⟩

/-! ### Node indices and level correctness of edges (C10) -/

lemma nodup_fameswap_categories (df : List Row) : (fameswap_categories df).Nodup :=
  (nodup_get_ordered_list _ _).filter _

lemma nodup_node_labels {df : List Row} {p : Bool}
    (hd1 : ∀ c ∈ broad_category_list df p, c ∉ fameswap_categories df)
    (hd2 : ∀ c ∈ specific_topics df p,
        c ∉ fameswap_categories df ∧ c ∉ broad_category_list df p) :
    (node_labels df p).Nodup := by
  unfold node_labels
  refine List.Nodup.append
    (List.Nodup.append (nodup_fameswap_categories df) (nodup_get_ordered_list _ _) ?_)
    (nodup_get_ordered_list _ _) ?_
  · intro c hc1 hc2
    exact hd1 c hc2 hc1
  · intro c hc1 hc2
    rcases List.mem_append.mp hc1 with h | h
    · exact (hd2 c hc2).1 h
    · exact (hd2 c hc2).2 h

/-- Input exhibiting a label collision across levels: primary category
`'Other'` together with an observed `'Other'` broad category. -/
def df_collision : List Row :=
  [mkRow "Other" ["political_content"], mkRow "Other" ["unclassified"]]

set_option maxHeartbeats 2000000 in
/-- **C10.** The node dictionary (src/sankey.py lines 281-292) is one map
keyed by label across all three levels.  When the per-level lists are
pairwise disjoint, every label's index is exactly its position in the
level-1 ++ level-2 ++ level-3 concatenation (the list is duplicate-free),
and every edge's endpoints land in the segments of the correct levels.
With a collision — `df_collision` puts `'Other'` at level 1 (position 0)
and level 2 (position 1) — the dictionary maps the label to the DEEPER
index 1, and both level-1→level-2 edges naming it as source are routed
there. -/
theorem node_mapping_concat_indices (df : List Row) (p : Bool)
    (hd1 : ∀ c ∈ broad_category_list df p, c ∉ fameswap_categories df)
    (hd2 : ∀ c ∈ specific_topics df p,
        c ∉ fameswap_categories df ∧ c ∉ broad_category_list df p) :
    ((node_labels df p).Nodup ∧
     ∀ c ∈ node_labels df p,
        node_mapping (node_labels df p) c = (node_labels df p).indexOf c) ∧
    (∀ e ∈ broad_edges df p,
        e.source < (fameswap_categories df).length ∧
        (fameswap_categories df).length ≤ e.target ∧
        e.target < (fameswap_categories df).length + (broad_category_list df p).length) ∧
    (∀ e ∈ specific_edges df p,
        (fameswap_categories df).length ≤ e.source ∧
        e.source < (fameswap_categories df).length + (broad_category_list df p).length ∧
        (fameswap_categories df).length + (broad_category_list df p).length ≤ e.target ∧
        e.target < (node_labels df p).length) ∧
    (fameswap_categories df_collision = ["Other"] ∧
     broad_category_list df_collision false = ["Other", "Ideological"] ∧
     node_mapping (node_labels df_collision false) "Other" = 1 ∧
     (broad_edges df_collision false).map EdgeInfo.source = [1, 1]) := by
  have hnd := nodup_node_labels hd1 hd2
  refine ⟨⟨hnd, fun c hc => node_mapping_eq_indexOf hnd hc⟩, ?_, ?_,
    by with_unfolding_all rfl, by with_unfolding_all rfl,
    by with_unfolding_all rfl, by with_unfolding_all rfl⟩
  · intro e he
    unfold broad_edges at he
    rcases List.mem_map.mp he with ⟨row, hrow, rfl⟩
    have hrowf : row ∈ broad_flows df p := (List.perm_insertionSort _ _).mem_iff.mp hrow
    rcases broad_flow_fields df p row hrowf with ⟨hfw, _, hbl⟩
    have hsrc := node_mapping_eq_indexOf hnd (mem_node_labels_fw (p := p) hfw)
    have htgt := node_mapping_eq_indexOf hnd (mem_node_labels_bl hbl)
    have hnotfw : row.broad_category ∉ fameswap_categories df := hd1 _ hbl
    refine ⟨?_, ?_, ?_⟩
    · show node_mapping (node_labels df p) row.fameswap_category < _
      rw [hsrc]
      unfold node_labels
      rw [List.indexOf_append_of_mem (List.mem_append_left _ hfw),
        List.indexOf_append_of_mem hfw]
      exact List.indexOf_lt_length.mpr hfw
    · show _ ≤ node_mapping (node_labels df p) row.broad_category
      rw [htgt]
      unfold node_labels
      rw [List.indexOf_append_of_mem (List.mem_append_right _ hbl),
        List.indexOf_append_of_not_mem hnotfw]
      omega
    · show node_mapping (node_labels df p) row.broad_category < _
      rw [htgt]
      unfold node_labels
      rw [List.indexOf_append_of_mem (List.mem_append_right _ hbl),
        List.indexOf_append_of_not_mem hnotfw]
      have := List.indexOf_lt_length.mpr hbl
      omega
  · intro e he
    unfold specific_edges at he
    rcases List.mem_map.mp he with ⟨row, hrow, rfl⟩
    have hrowf : row ∈ specific_flows df p := (List.perm_insertionSort _ _).mem_iff.mp hrow
    rcases specific_flow_fields df p row hrowf with ⟨hbl, hst⟩
    have hsrc := node_mapping_eq_indexOf hnd (mem_node_labels_bl hbl)
    have htgt := node_mapping_eq_indexOf hnd (mem_node_labels_st hst)
    have hnotfw : row.broad_category ∉ fameswap_categories df := hd1 _ hbl
    have hnotfwbl : row.specific_topic
        ∉ fameswap_categories df ++ broad_category_list df p := by
      intro hmem
      rcases List.mem_append.mp hmem with hm | hm
      · exact (hd2 _ hst).1 hm
      · exact (hd2 _ hst).2 hm
    refine ⟨?_, ?_, ?_, ?_⟩
    · show _ ≤ node_mapping (node_labels df p) row.broad_category
      rw [hsrc]
      unfold node_labels
      rw [List.indexOf_append_of_mem (List.mem_append_right _ hbl),
        List.indexOf_append_of_not_mem hnotfw]
      omega
    · show node_mapping (node_labels df p) row.broad_category < _
      rw [hsrc]
      unfold node_labels
      rw [List.indexOf_append_of_mem (List.mem_append_right _ hbl),
        List.indexOf_append_of_not_mem hnotfw]
      have := List.indexOf_lt_length.mpr hbl
      omega
    · show _ ≤ node_mapping (node_labels df p) row.specific_topic
      rw [htgt]
      unfold node_labels
      rw [List.indexOf_append_of_not_mem hnotfwbl, List.length_append]
      omega
    · show node_mapping (node_labels df p) row.specific_topic < (node_labels df p).length
      rw [htgt]
      unfold node_labels
      rw [List.indexOf_append_of_not_mem hnotfwbl, List.length_append, List.length_append,
        List.length_append]
      have := List.indexOf_lt_length.mpr hst
      omega

/-- A collision-free dataset used to witness C10. -/
def df_news : List Row := [mkRow "A" ["news_content"]]

/-- Witness for C10 at a concrete disjoint input: every label is mapped to
its position in the concatenated list. -/
theorem node_mapping_concat_indices_witness :
    (∀ c ∈ broad_category_list df_news false, c ∉ fameswap_categories df_news) ∧
    ((node_labels df_news false).Nodup ∧
     ∀ c ∈ node_labels df_news false,
        node_mapping (node_labels df_news false) c = (node_labels df_news false).indexOf c) :=
  ⟨by decide,
    (node_mapping_concat_indices df_news false (by decide) (by decide)).1⟩

end Sankey
